import Mathlib

/-!
Shallow embedding of the OSM API service of the Rapid editor
(src/modules/services/OsmService.js) and proofs about its changeset
lifecycle, tile and note caching, parsing, rate-limit and retry logic.

The JavaScript service is callback based: every HTTP request is issued and
its response handled later by a closure.  The embedding runs one request
atomically: an environment value supplies the response the remote server
would eventually deliver, together with the amount by which the connection
ID advanced before the response arrived (a connection switch increments
`_connectionID`, and callbacks compare the current ID with the captured one).
Numbers that the code stores as JavaScript floats are modelled as exact
rationals.
-/

set_option maxHeartbeats 1000000

namespace OsmService

/-- An error object handed to callbacks: a message plus an HTTP status code or
one of the internal negative codes used by the service. -/
structure ApiError where
  message : String
  status : Int
deriving Repr, DecidableEq

/-- The connection, authentication and changeset related fields of the service:
`_connectionID`, `_oauth.authenticated()`, `_userDetails`, `_userChangesets`,
`_rateLimitError`, `_cachedApiStatus`, `_changeset.inflight` and
`_changeset.openChangesetID`. -/
structure OsmState where
  connectionID : Nat
  authenticated : Bool
  userDetails : Bool
  userChangesets : Bool
  rateLimitError : Option ApiError
  cachedApiStatus : Option String
  csInflight : Bool
  openChangesetID : Option Nat
deriving Repr, DecidableEq

/-- Embeds `logout` (OsmService.js line 1048): clears the cached user details
and user changesets and drops the OAuth token, so `authenticated()` becomes
false.  The `authchange` emission is recorded by the callers. -/
def logout (s : OsmState) : OsmState :=
  { s with userChangesets := false, userDetails := false, authenticated := false }

/-- The outcome of one HTTP request as eventually delivered to the service:
how far the connection ID advanced before delivery, and the fetch result. -/
structure HttpResponse (α : Type) where
  connBump : Nat
  result : Except ApiError α
deriving Repr

/-- Observable events of the changeset code paths: entry into each of the three
lifecycle functions, the HTTP request each may issue, and `authchange`. -/
inductive CsEvent where
  | callCreate
  | callUpload
  | callClose
  | httpCreate
  | httpUpload
  | httpClose
  | authchange
deriving Repr, DecidableEq

/-- Whether an event marks entry into one of the three lifecycle functions. -/
def CsEvent.isCall : CsEvent → Bool
  | CsEvent.callCreate => true
  | CsEvent.callUpload => true
  | CsEvent.callClose => true
  | _ => false

/-- Result of `createChangeset` as seen by its callback: an error, or the ID of
the changeset that is now open. -/
inductive CsOutcome where
  | failed (e : ApiError)
  | opened (id : Nat)
deriving Repr, DecidableEq

/-- Embeds `createChangeset` (OsmService.js lines 374-418) as one atomic run:
the inflight and authentication guards, the reuse of an already open
changeset, the PUT request, and the response handling through `_wrapcb` and
`createdChangeset` (which clears the inflight marker, records the open
changeset ID on success, and logs out on a 400/401/403 error). -/
def createChangeset (s : OsmState) (env : HttpResponse Nat) :
    OsmState × List CsEvent × CsOutcome :=
  if s.csInflight then
    (s, [CsEvent.callCreate], CsOutcome.failed ⟨"Changeset already inflight", -2⟩)
  else if !s.authenticated then
    (s, [CsEvent.callCreate], CsOutcome.failed ⟨"Not Authenticated", -3⟩)
  else
    match s.openChangesetID with
    | some id =>
        ({ s with csInflight := false, openChangesetID := some id },
         [CsEvent.callCreate], CsOutcome.opened id)
    | none =>
        let cid := s.connectionID
        let s1 : OsmState :=
          { s with csInflight := true, connectionID := s.connectionID + env.connBump }
        match env.result with
        | Except.error e =>
            if e.status = 400 ∨ e.status = 401 ∨ e.status = 403 then
              ({ logout s1 with csInflight := false },
               [CsEvent.callCreate, CsEvent.httpCreate, CsEvent.authchange],
               CsOutcome.failed e)
            else
              ({ s1 with csInflight := false },
               [CsEvent.callCreate, CsEvent.httpCreate], CsOutcome.failed e)
        | Except.ok id =>
            if s1.connectionID ≠ cid then
              ({ s1 with csInflight := false },
               [CsEvent.callCreate, CsEvent.httpCreate],
               CsOutcome.failed ⟨"Connection Switched", -1⟩)
            else
              ({ s1 with csInflight := false, openChangesetID := some id },
               [CsEvent.callCreate, CsEvent.httpCreate], CsOutcome.opened id)

/-- Embeds `uploadChangeset` (OsmService.js lines 423-462) as one atomic run:
the inflight, authentication and changeset ID guards, the POST request, and
the response handling through `_wrapcb` and `uploadedChangeset` (which clears
the inflight marker and passes the error, if any, to the callback). -/
def uploadChangeset (s : OsmState) (csid : Nat) (env : HttpResponse Unit) :
    OsmState × List CsEvent × Option ApiError :=
  if s.csInflight then
    (s, [CsEvent.callUpload], some ⟨"Changeset already inflight", -2⟩)
  else if !s.authenticated then
    (s, [CsEvent.callUpload], some ⟨"Not Authenticated", -3⟩)
  else if s.openChangesetID ≠ some csid then
    (s, [CsEvent.callUpload], some ⟨"Changeset ID mismatch", -4⟩)
  else
    let cid := s.connectionID
    let s1 : OsmState :=
      { s with csInflight := true, connectionID := s.connectionID + env.connBump }
    match env.result with
    | Except.error e =>
        if e.status = 400 ∨ e.status = 401 ∨ e.status = 403 then
          ({ logout s1 with csInflight := false },
           [CsEvent.callUpload, CsEvent.httpUpload, CsEvent.authchange], some e)
        else
          ({ s1 with csInflight := false },
           [CsEvent.callUpload, CsEvent.httpUpload], some e)
    | Except.ok _ =>
        if s1.connectionID ≠ cid then
          ({ s1 with csInflight := false },
           [CsEvent.callUpload, CsEvent.httpUpload],
           some ⟨"Connection Switched", -1⟩)
        else
          ({ s1 with csInflight := false },
           [CsEvent.callUpload, CsEvent.httpUpload], none)

/-- Embeds `closeChangeset` (OsmService.js lines 467-506) as one atomic run:
the same three guards as the upload, the PUT request, and the response
handling through `_wrapcb` and `closedChangeset` (which clears the inflight
marker and the open changeset ID in every delivered-response case). -/
def closeChangeset (s : OsmState) (csid : Nat) (env : HttpResponse Unit) :
    OsmState × List CsEvent × Option ApiError :=
  if s.csInflight then
    (s, [CsEvent.callClose], some ⟨"Changeset already inflight", -2⟩)
  else if !s.authenticated then
    (s, [CsEvent.callClose], some ⟨"Not Authenticated", -3⟩)
  else if s.openChangesetID ≠ some csid then
    (s, [CsEvent.callClose], some ⟨"Changeset ID mismatch", -4⟩)
  else
    let cid := s.connectionID
    let s1 : OsmState :=
      { s with csInflight := true, connectionID := s.connectionID + env.connBump }
    match env.result with
    | Except.error e =>
        if e.status = 400 ∨ e.status = 401 ∨ e.status = 403 then
          ({ logout s1 with csInflight := false, openChangesetID := none },
           [CsEvent.callClose, CsEvent.httpClose, CsEvent.authchange], some e)
        else
          ({ s1 with csInflight := false, openChangesetID := none },
           [CsEvent.callClose, CsEvent.httpClose], some e)
    | Except.ok _ =>
        if s1.connectionID ≠ cid then
          ({ s1 with csInflight := false, openChangesetID := none },
           [CsEvent.callClose, CsEvent.httpClose],
           some ⟨"Connection Switched", -1⟩)
        else
          ({ s1 with csInflight := false, openChangesetID := none },
           [CsEvent.callClose, CsEvent.httpClose], none)

/-- The environment of one `sendChangeset` run: the responses the server would
deliver to the create, upload and close requests. -/
structure SendEnv where
  create : HttpResponse Nat
  upload : HttpResponse Unit
  close : HttpResponse Unit
deriving Repr

/-- What the user callback of `sendChangeset` finally receives. -/
inductive UserCb where
  | err (e : ApiError)
  | ok (csid : Nat)
deriving Repr, DecidableEq

/-- Embeds `sendChangeset` (OsmService.js lines 513-538): chains create, upload
and close.  On a create or upload error the user callback receives the error
and the chain stops.  After a successful upload the close is attempted only
when the connection ID still equals the one captured at the start, and the
deferred timeout then clears the open changeset ID and reports success. -/
def sendChangeset (s0 : OsmState) (env : SendEnv) :
    OsmState × List CsEvent × UserCb :=
  let cid := s0.connectionID
  match createChangeset s0 env.create with
  | (s1, evs1, CsOutcome.failed e) => (s1, evs1, UserCb.err e)
  | (s1, evs1, CsOutcome.opened csid) =>
      match uploadChangeset s1 csid env.upload with
      | (s2, evs2, some e) => (s2, evs1 ++ evs2, UserCb.err e)
      | (s2, evs2, none) =>
          let step3 : OsmState × List CsEvent :=
            if s2.connectionID = cid then
              let r := closeChangeset s2 csid env.close
              (r.1, r.2.1)
            else (s2, [])
          ({ step3.1 with openChangesetID := none },
           evs1 ++ evs2 ++ step3.2, UserCb.ok csid)

/-- A rectangle stored in the tile RBush index: the WGS84 bounding box of a
loaded tile tagged with the tile ID, as built by `gotTile`
(OsmService.js lines 766-768). -/
structure TileBox where
  minX : ℚ
  minY : ℚ
  maxX : ℚ
  maxY : ℚ
  id : String
deriving Repr, DecidableEq

/-- A map tile as produced by the Tiler: its ID and its WGS84 extent. -/
structure Tile where
  id : String
  minX : ℚ
  minY : ℚ
  maxX : ℚ
  maxY : ℚ
deriving Repr, DecidableEq

/-- The rectangle the service inserts for a tile: `tile.wgs84Extent.bbox()`
with `bbox.id = tile.id`. -/
def Tile.bbox (t : Tile) : TileBox := ⟨t.minX, t.minY, t.maxX, t.maxY, t.id⟩

/-- The `_tileCache` (OsmService.js line 40).  JavaScript objects keyed by tile
or entity ID are modelled as lists of keys, and the RBush spatial index as the
list of rectangles it stores. -/
structure TileCache where
  toLoad : List String
  loaded : List String
  inflight : List String
  seen : List String
  rtree : List TileBox
deriving Repr, DecidableEq

/-- Inclusive rectangle intersection between a stored rectangle and a query
rectangle, as the RBush library computes it for `search` and `collides`. -/
def boxIntersects (b : TileBox) (qminX qminY qmaxX qmaxY : ℚ) : Bool :=
  decide (b.minX ≤ qmaxX) && decide (b.minY ≤ qmaxY) &&
  decide (qminX ≤ b.maxX) && decide (qminY ≤ b.maxY)

/-- Observable events of the tile loading code path. -/
inductive TileEvent where
  | loading
  | loadedEv
  | httpRequest (tileId : String)
deriving Repr, DecidableEq

/-- Embeds the synchronous part of `loadTile` (OsmService.js lines 742-786):
the off switch, the skip of loaded or inflight tiles, the blocked-region
shortcut, the `loading` emission, and the registration of the new inflight
request.  `blocked` abstracts the location-system query that reports every
corner of the tile inside a blocked region. -/
def loadTile (off : Bool) (blocked : Bool) (cache : TileCache) (tile : Tile) :
    TileCache × List TileEvent :=
  if off then (cache, [])
  else if tile.id ∈ cache.loaded ∨ tile.id ∈ cache.inflight then (cache, [])
  else if blocked then ({ cache with loaded := tile.id :: cache.loaded }, [])
  else
    let evs := if cache.inflight.isEmpty then [TileEvent.loading] else []
    ({ cache with inflight := tile.id :: cache.inflight },
     evs ++ [TileEvent.httpRequest tile.id])

/-- Embeds the `gotTile` response handler of `loadTile` (OsmService.js lines
761-776): the inflight marker is removed; on success the toLoad marker is
cleared, the tile is marked loaded and its tagged bbox is inserted into the
RBush index; the `loaded` event fires when no request remains inflight. -/
def gotTile (cache : TileCache) (tile : Tile) (err : Option ApiError) :
    TileCache × List TileEvent :=
  let c1 := { cache with inflight := cache.inflight.filter (fun k => k != tile.id) }
  let c2 :=
    match err with
    | none =>
        { c1 with toLoad := c1.toLoad.filter (fun k => k != tile.id),
                  loaded := tile.id :: c1.loaded,
                  rtree := c1.rtree ++ [tile.bbox] }
    | some _ => c1
  (c2, if c2.inflight.isEmpty then [TileEvent.loadedEv] else [])

/-- Embeds `isDataLoaded` (OsmService.js lines 789-792): whether the point
bbox of `loc` collides with any rectangle of the tile RBush index. -/
def isDataLoaded (cache : TileCache) (loc : ℚ × ℚ) : Bool :=
  cache.rtree.any (fun b => boxIntersects b loc.1 loc.2 loc.1 loc.2)

/-- An OSM note as assembled by `_parseNoteXML`: its ID, its (possibly
displaced) location, and the remaining parsed properties. -/
structure Note where
  id : String
  loc : ℚ × ℚ
  props : List (String × String)
deriving Repr, DecidableEq

/-- An entry of the note RBush index: a rectangle together with the note it
carries (`_encodeNoteRtree` stores point rectangles). -/
structure NoteBox where
  minX : ℚ
  minY : ℚ
  maxX : ℚ
  maxY : ℚ
  data : Note
deriving Repr, DecidableEq

/-- The `_noteCache` (OsmService.js line 41), with the same object-as-key-list
modelling as the tile cache. -/
structure NoteCache where
  toLoad : List String
  loaded : List String
  inflight : List String
  inflightPost : List String
  note : List (String × Note)
  closed : List String
  rtree : List NoteBox
deriving Repr, DecidableEq

/-- Embeds `_abortUnwantedRequests` (OsmService.js lines 1150-1158) for the
note cache: an inflight request is kept only when its tile is queued in
toLoad or still among the visible tiles; the rest are aborted and removed. -/
def abortUnwantedNoteRequests (cache : NoteCache) (tiles : List Tile) : NoteCache :=
  let keep : String → Bool :=
    fun k => decide (k ∈ cache.toLoad) || tiles.any (fun t => t.id == k)
  { cache with inflight := cache.inflight.filter keep }

/-- Embeds the per-tile loop of `loadNotes` (OsmService.js lines 844-869):
loaded or inflight tiles are skipped, fully blocked tiles are marked loaded
without a request, and every other tile gets a request registered as
inflight.  Returns the cache and the IDs of the tiles requested, in order. -/
def loadNotesLoop (blocked : Tile → Bool) :
    NoteCache → List Tile → NoteCache × List String
  | cache, [] => (cache, [])
  | cache, t :: rest =>
      if t.id ∈ cache.loaded ∨ t.id ∈ cache.inflight then
        loadNotesLoop blocked cache rest
      else if blocked t then
        loadNotesLoop blocked { cache with loaded := t.id :: cache.loaded } rest
      else
        let c1 := { cache with inflight := t.id :: cache.inflight }
        let r := loadNotesLoop blocked c1 rest
        (r.1, t.id :: r.2)

/-- Embeds `loadNotes` (OsmService.js lines 820-870): the off switch, the
abort of unwanted inflight requests, and the per-tile request loop. -/
def loadNotes (off : Bool) (blocked : Tile → Bool) (cache : NoteCache)
    (tiles : List Tile) : NoteCache × List String :=
  if off then (cache, [])
  else loadNotesLoop blocked (abortUnwantedNoteRequests cache tiles) tiles

/-- Assignment `m[k] = v` on a JavaScript object modelled as an association
list: replace the value in place when the key exists, else append. -/
def objSet {α : Type} (m : List (String × α)) (k : String) (v : α) :
    List (String × α) :=
  if m.any (fun p => p.1 == k) then
    m.map (fun p => if p.1 == k then (k, v) else p)
  else m ++ [(k, v)]

/-- A member entry of a parsed relation. -/
structure MemberRec where
  id : String
  type : String
  role : String
deriving Repr, DecidableEq

/-- Modelled from the spec: the domain entities (geographic nodes, ways,
relations) are straightforward records mirroring the remote API schema, with
no invariants beyond what the remote service enforces (spec section 3).  The
`osmNode`, `osmWay` and `osmRelation` constructors of the repository live in
src/modules/osm, which is not under src/, so an entity is modelled as the
record of exactly the properties the parsers pass, with empty defaults for
the collections. -/
structure OsmEntityRec where
  kind : String
  id : String
  visible : Bool
  version : Option String
  changeset : Option String
  timestamp : Option String
  user : Option String
  uid : Option String
  loc : Option (ℚ × ℚ)
  tags : List (String × String)
  nodes : List String
  members : List MemberRec
deriving Repr, DecidableEq

/-- Modelled from the spec: `osmEntity.id.fromOSM` of the repository
(src/modules/osm, not under src/) prefixes the OSM ID with the first letter
of the element type, which is what the rest of OsmService.js assumes (node
refs get an n prefix at line 1170, member IDs are the first character of the
type plus the ref at line 1199). -/
def fromOSM (ty : String) (idStr : String) : String := ty.take 1 ++ idStr

/-- A member of a relation in a JSON payload. -/
structure JsonMember where
  type : String
  ref : Int
  role : String
deriving Repr, DecidableEq

/-- One element of a JSON payload (`json.elements`): the type tag and the
fields the parsers read.  A field absent from the JSON object is `none`; the
coordinates carry the numeric value of the JSON number. -/
structure JsonElem where
  type : String
  id : Int
  visible : Option Bool
  version : Option Int
  changeset : Option Int
  timestamp : Option String
  user : Option String
  uid : Option Int
  lon : ℚ
  lat : ℚ
  tags : Option (List (String × String))
  nodes : Option (List Int)
  members : Option (List JsonMember)
deriving Repr, DecidableEq

/-- Embeds `_getNodesJSON` (OsmService.js lines 1174-1176). -/
def getNodesJSON (obj : JsonElem) : List String :=
  (obj.nodes.getD []).map (fun n => "n" ++ toString n)

/-- Embeds `_getMembersJSON` (OsmService.js lines 1207-1215); the first
character of the type string is `String.take 1`. -/
def getMembersJSON (obj : JsonElem) : List MemberRec :=
  (obj.members.getD []).map
    (fun m => { id := m.type.take 1 ++ toString m.ref, type := m.type, role := m.role })

/-- Embeds `_parseNodeJSON` (OsmService.js lines 1436-1448); the entity
constructor defaults the tags to the empty object when absent. -/
def parseNodeJSON (obj : JsonElem) (uid : String) : OsmEntityRec :=
  { kind := "node", id := uid,
    visible := obj.visible.getD true,
    version := obj.version.map toString,
    changeset := obj.changeset.map toString,
    timestamp := obj.timestamp,
    user := obj.user,
    uid := obj.uid.map toString,
    loc := some (obj.lon, obj.lat),
    tags := obj.tags.getD [],
    nodes := [], members := [] }

/-- Embeds `_parseWayJSON` (OsmService.js lines 1450-1462). -/
def parseWayJSON (obj : JsonElem) (uid : String) : OsmEntityRec :=
  { kind := "way", id := uid,
    visible := obj.visible.getD true,
    version := obj.version.map toString,
    changeset := obj.changeset.map toString,
    timestamp := obj.timestamp,
    user := obj.user,
    uid := obj.uid.map toString,
    loc := none,
    tags := obj.tags.getD [],
    nodes := getNodesJSON obj, members := [] }

/-- Embeds `_parseRelationJSON` (OsmService.js lines 1464-1476). -/
def parseRelationJSON (obj : JsonElem) (uid : String) : OsmEntityRec :=
  { kind := "relation", id := uid,
    visible := obj.visible.getD true,
    version := obj.version.map toString,
    changeset := obj.changeset.map toString,
    timestamp := obj.timestamp,
    user := obj.user,
    uid := obj.uid.map toString,
    loc := none,
    tags := obj.tags.getD [],
    nodes := [], members := getMembersJSON obj }

/-- A tag child element of an XML element: its k and v attribute strings. -/
structure XmlTag where
  k : String
  v : String
deriving Repr, DecidableEq

/-- A member child element of an XML relation. -/
structure XmlMember where
  type : String
  ref : String
  role : String
deriving Repr, DecidableEq

/-- An XML element for a node, way or relation: `name` is the nodeName, the
attributes read through the optional-chaining operator are `Option`, while
`id` and `version` are read unconditionally and so are required.  `lon` and
`lat` carry the rational value `parseFloat` extracts from the coordinate
attribute strings. -/
structure XmlElem where
  name : String
  id : String
  visible : Option String
  version : String
  changeset : Option String
  timestamp : Option String
  user : Option String
  uid : Option String
  lon : ℚ
  lat : ℚ
  tags : List XmlTag
  nds : List String
  members : List XmlMember
deriving Repr, DecidableEq

/-- The visibility computation of the XML parsers:
`(!attrs.visible || attrs.visible.value !== 'false')`. -/
def visibleOfAttr : Option String → Bool
  | none => true
  | some v => v != "false"

/-- The whitespace set the JavaScript `trim()` removes (ECMAScript WhiteSpace
and LineTerminator): tab, LF, vertical tab, form feed, CR, space, no-break
space, BOM, the Unicode space separators (U+1680, U+2000 to U+200A, U+202F,
U+205F, U+3000) and the line and paragraph separators. -/
def jsWhitespace (c : Char) : Bool :=
  c == ' ' || c == '\t' || c == '\n' || c == '\r' ||
  c == '\x0b' || c == '\x0c' || c == '\u00A0' || c == '\uFEFF' ||
  c == '\u1680' || (decide ('\u2000' ≤ c) && decide (c ≤ '\u200A')) ||
  c == '\u2028' || c == '\u2029' || c == '\u202F' || c == '\u205F' || c == '\u3000'

/-- The JavaScript `trim()`: drop leading and trailing ECMAScript whitespace.
It is written over the character list so that it evaluates by reduction. -/
def jsTrim (s : String) : String :=
  String.mk (((s.data.dropWhile jsWhitespace).reverse.dropWhile
    jsWhitespace).reverse)

/-- One step of `_getTags`: trim both attribute values and store the pair
only when the trimmed key is nonempty. -/
def getTagsStep (acc : List (String × String)) (t : XmlTag) : List (String × String) :=
  let k := jsTrim t.k
  let v := jsTrim t.v
  if k ≠ "" then objSet acc k v else acc

/-- Embeds `_getTags` (OsmService.js lines 1179-1191). -/
def getTags (elems : List XmlTag) : List (String × String) :=
  elems.foldl getTagsStep []

/-- Embeds `_getLoc` (OsmService.js lines 1161-1165), with the attribute
strings modelled by the rational values parseFloat extracts from them. -/
def getLoc (lon lat : ℚ) : ℚ × ℚ := (lon, lat)

/-- Embeds `_getNodes` (OsmService.js lines 1168-1171). -/
def getNodes (x : XmlElem) : List String := x.nds.map (fun r => "n" ++ r)

/-- Embeds `_getMembers` (OsmService.js lines 1194-1204). -/
def getMembers (x : XmlElem) : List MemberRec :=
  x.members.map
    (fun m => { id := m.type.take 1 ++ m.ref, type := m.type, role := m.role })

/-- Embeds `_parseNodeXML` (OsmService.js lines 1478-1491). -/
def parseNodeXML (x : XmlElem) (uid : String) : OsmEntityRec :=
  { kind := "node", id := uid,
    visible := visibleOfAttr x.visible,
    version := some x.version,
    changeset := x.changeset,
    timestamp := x.timestamp,
    user := x.user,
    uid := x.uid,
    loc := some (getLoc x.lon x.lat),
    tags := getTags x.tags,
    nodes := [], members := [] }

/-- Embeds `_parseWayXML` (OsmService.js lines 1493-1506). -/
def parseWayXML (x : XmlElem) (uid : String) : OsmEntityRec :=
  { kind := "way", id := uid,
    visible := visibleOfAttr x.visible,
    version := some x.version,
    changeset := x.changeset,
    timestamp := x.timestamp,
    user := x.user,
    uid := x.uid,
    loc := none,
    tags := getTags x.tags,
    nodes := getNodes x, members := [] }

/-- Embeds `_parseRelationXML` (OsmService.js lines 1508-1521). -/
def parseRelationXML (x : XmlElem) (uid : String) : OsmEntityRec :=
  { kind := "relation", id := uid,
    visible := visibleOfAttr x.visible,
    version := some x.version,
    changeset := x.changeset,
    timestamp := x.timestamp,
    user := x.user,
    uid := x.uid,
    loc := none,
    tags := getTags x.tags,
    nodes := [], members := getMembers x }

/-- The XML representation of the same element as a given JSON element, with
attribute strings spelling the JSON values.  This definition follows the
wording of the equivalence claim (an equivalent XML representation of the
same element) and is compared against the parsers taken from the source.  A
JSON element without a version has no XML counterpart that the XML parser
accepts, so the equivalence is considered for versioned elements. -/
def xmlOfJSON (name : String) (obj : JsonElem) : XmlElem :=
  { name := name,
    id := toString obj.id,
    visible := obj.visible.map (fun b => if b then "true" else "false"),
    version := toString (obj.version.getD 0),
    changeset := obj.changeset.map toString,
    timestamp := obj.timestamp,
    user := obj.user,
    uid := obj.uid.map toString,
    lon := obj.lon,
    lat := obj.lat,
    tags := (obj.tags.getD []).map (fun p => XmlTag.mk p.1 p.2),
    nds := (obj.nodes.getD []).map toString,
    members := (obj.members.getD []).map
      (fun m => XmlMember.mk m.type (toString m.ref) m.role) }

/-- A concrete node element whose tag value carries a leading space: the JSON
parser keeps the raw value while the XML tag parser trims it. -/
def spacedTagNode : JsonElem :=
  { type := "node", id := 1, visible := none, version := some 1,
    changeset := none, timestamp := none, user := none, uid := none,
    lon := 0, lat := 0, tags := some [("a", " b")], nodes := none,
    members := none }

/-- The JSON user object fields read by `_parseJSON` (lines 1321-1343). -/
structure JsonUser where
  id : Option Int
  display_name : Option String
  account_created : Option String
  img_href : Option String
  changesets_count : Option Int
  active_blocks : Option Int
deriving Repr, DecidableEq

/-- The parsed user record the service caches. -/
structure ParsedUser where
  id : String
  display_name : Option String
  account_created : Option String
  image_url : Option String
  changesets_count : String
  active_blocks : String
deriving Repr, DecidableEq

/-- A changeset of a JSON payload: only the comment tag is inspected. -/
structure JsonChangeset where
  comment : Option String
deriving Repr, DecidableEq

/-- A JSON payload as normalized at `_parseJSON` lines 1277-1279. -/
structure JsonPayload where
  elements : List JsonElem
  users : List JsonUser
  changesets : List JsonChangeset
deriving Repr, DecidableEq

/-- The cache state `_parseJSON` and `_parseXML` read and update: the seen
set of the tile cache and the user cache. -/
structure ParseState where
  tileSeen : List String
  userToLoad : List String
  users : List (String × ParsedUser)
deriving Repr, DecidableEq

/-- The user record built by `_parseJSON` (lines 1332-1339). -/
def parseUserJSON (u : JsonUser) (uid : String) : ParsedUser :=
  { id := uid,
    display_name := u.display_name,
    account_created := u.account_created,
    image_url := u.img_href,
    changesets_count := (u.changesets_count.map toString).getD "0",
    active_blocks := (u.active_blocks.map toString).getD "0" }

/-- Whether the element loop of `_parseJSON` has a parser for the type. -/
def hasJsonParser (t : String) : Bool := t == "node" || t == "way" || t == "relation"

/-- Parser dispatch of the element loop of `_parseJSON` (lines 1295-1304). -/
def dispatchJSON (el : JsonElem) (uid : String) : OsmEntityRec :=
  if el.type == "node" then parseNodeJSON el uid
  else if el.type == "way" then parseWayJSON el uid
  else parseRelationJSON el uid

/-- The element loop of `_parseJSON` (lines 1295-1318): elements of unknown
type are skipped; with skipSeen on, a uid already in the seen set is skipped
and a parsed uid is recorded as seen. -/
def parseElementsJSON (skipSeen : Bool) :
    List JsonElem → List String → List OsmEntityRec × List String
  | [], seen => ([], seen)
  | el :: rest, seen =>
      if hasJsonParser el.type then
        let uid := fromOSM el.type (toString el.id)
        if skipSeen ∧ uid ∈ seen then parseElementsJSON skipSeen rest seen
        else
          let seen1 := if skipSeen then uid :: seen else seen
          let r := parseElementsJSON skipSeen rest seen1
          (dispatchJSON el uid :: r.1, r.2)
      else parseElementsJSON skipSeen rest seen

/-- The user loop of `_parseJSON` (lines 1321-1343): users without an id are
skipped, the uid is dropped from the toLoad queue, a cached user is skipped
when skipSeen is on, and a parsed record is stored in the user cache. -/
def parseUsersJSON (skipSeen : Bool) :
    List JsonUser → List String → List (String × ParsedUser) →
    List ParsedUser × List String × List (String × ParsedUser)
  | [], toLoad, users => ([], toLoad, users)
  | u :: rest, toLoad, users =>
      match u.id with
      | none => parseUsersJSON skipSeen rest toLoad users
      | some n =>
          let uid := toString n
          let toLoad1 := toLoad.filter (fun k => k != uid)
          if skipSeen ∧ users.any (fun p => p.1 == uid) then
            parseUsersJSON skipSeen rest toLoad1 users
          else
            let parsed := parseUserJSON u uid
            let r := parseUsersJSON skipSeen rest toLoad1 (objSet users uid parsed)
            (parsed :: r.1, r.2)

/-- The changeset loop of `_parseJSON` (lines 1346-1349): keep only the
changesets whose comment tag is a nonempty string. -/
def parseChangesetsJSON (cs : List JsonChangeset) : List JsonChangeset :=
  cs.filter (fun c => c.comment.getD "" != "")

/-- An item of the `results.data` array of the parse routines. -/
inductive ParsedItem where
  | entity (e : OsmEntityRec)
  | user (u : ParsedUser)
  | changeset (c : JsonChangeset)
  | noteItem (n : Note)
deriving Repr, DecidableEq

/-- Embeds the result-building body of `_parseJSON` (OsmService.js lines
1264-1355): the partial-payload check and the element, user and changeset
loops.  The checks for a missing or non-object payload precede the decoding
this model receives, and the truthiness test on the three arrays is dead
code since arrays are always truthy. -/
def parseJSONModel (skipSeen : Bool) (p : JsonPayload) (st : ParseState) :
    Except ApiError (List ParsedItem × ParseState) :=
  if p.elements.any (fun el => el.type == "error") then
    Except.error ⟨"Partial JSON", -1⟩
  else
    let re := parseElementsJSON skipSeen p.elements st.tileSeen
    let ru := parseUsersJSON skipSeen p.users st.userToLoad st.users
    let cs := parseChangesetsJSON p.changesets
    Except.ok
      (re.1.map ParsedItem.entity ++ ru.1.map ParsedItem.user ++
        cs.map ParsedItem.changeset,
       { tileSeen := re.2, userToLoad := ru.2.1, users := ru.2.2 })

/-- The attribute and child data `_parseUserXML` reads from a user element. -/
structure XmlUser where
  display_name : Option String
  account_created : Option String
  img_href : Option String
  changesets_count : Option String
  active_blocks : Option String
deriving Repr, DecidableEq

/-- Embeds `_parseUserXML` (OsmService.js lines 1564-1595) without its cache
writes (the XML child loop performs them on the parse state): the counts
default to the string 0 unless the attribute is present and nonempty. -/
def parseUserXML (x : XmlUser) (uid : String) : ParsedUser :=
  { id := uid,
    display_name := x.display_name,
    account_created := x.account_created,
    image_url := if (x.img_href.getD "") != "" then x.img_href else none,
    changesets_count :=
      match x.changesets_count with
      | some c => if c != "" then c else "0"
      | none => "0",
    active_blocks :=
      match x.active_blocks with
      | some c => if c != "" then c else "0"
      | none => "0" }

/-- The data `_parseNoteXML` reads from a note element: the id child text,
the rational coordinate attribute values, and the remaining children as
name-text pairs. -/
structure XmlNote where
  id : String
  lon : ℚ
  lat : ℚ
  props : List (String × String)
deriving Repr, DecidableEq

/-- The RBush search of `_parseNoteXML` line 1539: whether any entry of the
note index intersects the point bbox of `loc`. -/
def noteOccupied (rtree : List NoteBox) (loc : ℚ × ℚ) : Bool :=
  rtree.any (fun b =>
    decide (b.minX ≤ loc.1) && decide (b.minY ≤ loc.2) &&
    decide (loc.1 ≤ b.maxX) && decide (loc.2 ≤ b.maxY))

/-- The displacement step `[0.00001, 0.00001]` of `_parseNoteXML`. -/
def noteEpsilon : ℚ := 1 / 100000

/-- The largest maxX coordinate stored in the note index (0 when empty): an
occupied x coordinate never exceeds it. -/
def rtreeMaxX (rtree : List NoteBox) : ℚ :=
  rtree.foldr (fun b m => max b.maxX m) 0

/-- The coincidence-displacement loop of `_parseNoteXML` (lines 1531-1540):
while the location collides with an entry of the note index, move it by
noteEpsilon in both coordinates.  The displacement is modelled over exact
rationals, where every step advances the x coordinate by noteEpsilon and an
occupied x coordinate is bounded by `rtreeMaxX`, so the loop terminates.
The source adds the IEEE double 0.00001 instead, which is a no-op once the
magnitude of the coordinate exceeds about 1.8e11 (the unit in the last
place there is larger than twice the step): at such a coordinate the source
loop stays coincident forever, a divergence this exact model does not
reproduce. -/
def bumpLoc (rtree : List NoteBox) (loc : ℚ × ℚ) : ℚ × ℚ :=
  if h : noteOccupied rtree loc then
    bumpLoc rtree (loc.1 + noteEpsilon, loc.2 + noteEpsilon)
  else loc
termination_by (⌈(rtreeMaxX rtree - loc.1) / noteEpsilon⌉ + 1).toNat
decreasing_by
  simp only [noteOccupied, List.any_eq_true, Bool.and_eq_true, decide_eq_true_eq] at h
  obtain ⟨b, hb, ⟨⟨h1, h2⟩, h3⟩, h4⟩ := h
  have hble : ∀ l : List NoteBox, b ∈ l → b.maxX ≤ rtreeMaxX l := by
    intro l
    induction l with
    | nil => intro hl; cases hl
    | cons a t ih =>
        intro hl
        rcases List.mem_cons.mp hl with h1 | h1
        · rw [h1]; exact le_max_left _ _
        · exact le_trans (ih h1) (le_max_right _ _)
  have hx2 : loc.1 ≤ rtreeMaxX rtree := le_trans h3 (hble _ hb)
  have hq : (0 : ℚ) ≤ (rtreeMaxX rtree - loc.1) / noteEpsilon :=
    div_nonneg (by linarith) (by norm_num [noteEpsilon])
  have hceil : (0 : ℤ) ≤ ⌈(rtreeMaxX rtree - loc.1) / noteEpsilon⌉ := Int.ceil_nonneg hq
  have harg : (rtreeMaxX rtree - (loc.1 + noteEpsilon)) / noteEpsilon
      = (rtreeMaxX rtree - loc.1) / noteEpsilon - 1 := by
    have hne : (noteEpsilon : ℚ) ≠ 0 := by norm_num [noteEpsilon]
    field_simp
    ring
  simp only [harg, Int.ceil_sub_one]
  omega

/-- Embeds `_encodeNoteRtree` (OsmService.js lines 1247-1255). -/
def encodeNoteRtree (n : Note) : NoteBox :=
  { minX := n.loc.1, minY := n.loc.2, maxX := n.loc.1, maxY := n.loc.2, data := n }

/-- Embeds `_parseNoteXML` (OsmService.js lines 1523-1561): displace the
location until it is unoccupied, assemble the note, store it in the note map
and insert its point rectangle into the RBush index. -/
def parseNoteXML (cache : NoteCache) (x : XmlNote) (uid : String) : NoteCache × Note :=
  let loc := bumpLoc cache.rtree (getLoc x.lon x.lat)
  let note : Note := { id := uid, loc := loc, props := x.props }
  let item := encodeNoteRtree note
  ({ cache with note := objSet cache.note uid note, rtree := cache.rtree ++ [item] },
   note)

/-- A child of the root of an XML payload, by nodeName. -/
inductive XmlChild where
  | entity (x : XmlElem)
  | user (uid : String) (x : XmlUser)
  | note (x : XmlNote)
  | other (name : String)
deriving Repr, DecidableEq

/-- Whether a child is a note element. -/
def XmlChild.isNote : XmlChild → Bool
  | XmlChild.note _ => true
  | _ => false

/-- Parser dispatch of the XML child loop for node, way and relation. -/
def dispatchXML (x : XmlElem) (uid : String) : OsmEntityRec :=
  if x.name == "node" then parseNodeXML x uid
  else if x.name == "way" then parseWayXML x uid
  else parseRelationXML x uid

/-- Embeds the child loop of `_parseXML` (OsmService.js lines 1365-1433):
entities go through the seen set of the tile cache when skipSeen is on,
cached users are skipped (dropping them from the toLoad queue), notes are
parsed unconditionally into the note cache, and other children are ignored.
The partial-payload check above the loop compares a property that does not
exist (`nodename`), so it never fires. -/
def parseXMLChildren (skipSeen : Bool) :
    List XmlChild → ParseState → NoteCache → List ParsedItem × ParseState × NoteCache
  | [], st, ncache => ([], st, ncache)
  | c :: rest, st, ncache =>
      match c with
      | XmlChild.entity x =>
          if x.name == "node" || x.name == "way" || x.name == "relation" then
            let uid := fromOSM x.name x.id
            if skipSeen ∧ uid ∈ st.tileSeen then
              parseXMLChildren skipSeen rest st ncache
            else
              let st1 := if skipSeen then { st with tileSeen := uid :: st.tileSeen } else st
              let r := parseXMLChildren skipSeen rest st1 ncache
              (ParsedItem.entity (dispatchXML x uid) :: r.1, r.2)
          else parseXMLChildren skipSeen rest st ncache
      | XmlChild.user uid x =>
          if skipSeen ∧ st.users.any (fun p => p.1 == uid) then
            let st1 := { st with userToLoad := st.userToLoad.filter (fun k => k != uid) }
            parseXMLChildren skipSeen rest st1 ncache
          else
            let parsed := parseUserXML x uid
            let st1 := { st with users := objSet st.users uid parsed,
                                 userToLoad := st.userToLoad.filter (fun k => k != uid) }
            let r := parseXMLChildren skipSeen rest st1 ncache
            (ParsedItem.user parsed :: r.1, r.2)
      | XmlChild.note x =>
          let rn := parseNoteXML ncache x x.id
          let r := parseXMLChildren skipSeen rest st rn.1
          (ParsedItem.noteItem rn.2 :: r.1, r.2)
      | XmlChild.other _ => parseXMLChildren skipSeen rest st ncache

/-- Observable events of `loadFromAPI`, `status` and `authenticate`. -/
inductive ApiEvent where
  | httpRequest (path : String)
  | authchangeEv
  | throttledReloadEv
  | cbError (e : ApiError)
  | cbParse
  | reqUserChangesets
deriving Repr, DecidableEq

/-- Embeds `loadFromAPI` (OsmService.js lines 236-298) together with its
`done` handler, driven by the responses the server delivers to the
successive attempts: the 400/401/403 logout-and-retry path reissues the
request with the same path, callback and options, the 429/509
rate-limit path records the error, and the status-mismatch paths trigger a
throttled status reload.  An empty response list leaves the request
pending. -/
def loadFromAPIRun (path : String) :
    OsmState → List (HttpResponse Unit) → OsmState × List ApiEvent
  | s, [] => (s, [ApiEvent.httpRequest path])
  | s, r :: rest =>
      let cid := s.connectionID
      let s1 : OsmState := { s with connectionID := s.connectionID + r.connBump }
      if s1.connectionID ≠ cid then
        (s1, [ApiEvent.httpRequest path, ApiEvent.cbError ⟨"Connection Switched", -1⟩])
      else
        match r.result with
        | Except.error e =>
            if s1.authenticated ∧ (e.status = 400 ∨ e.status = 401 ∨ e.status = 403) then
              let rr := loadFromAPIRun path (logout s1) rest
              (rr.1, ApiEvent.httpRequest path :: ApiEvent.authchangeEv :: rr.2)
            else if !s1.authenticated ∧ s1.rateLimitError = none ∧
                (e.status = 509 ∨ e.status = 429) then
              ({ s1 with rateLimitError := some e },
               [ApiEvent.httpRequest path, ApiEvent.authchangeEv,
                ApiEvent.throttledReloadEv, ApiEvent.cbError e])
            else if s1.cachedApiStatus = some "online" then
              (s1, [ApiEvent.httpRequest path, ApiEvent.throttledReloadEv,
                    ApiEvent.cbError e])
            else
              (s1, [ApiEvent.httpRequest path, ApiEvent.cbError e])
        | Except.ok _ =>
            if s1.cachedApiStatus ≠ some "online" then
              (s1, [ApiEvent.httpRequest path, ApiEvent.throttledReloadEv,
                    ApiEvent.cbParse])
            else
              (s1, [ApiEvent.httpRequest path, ApiEvent.cbParse])

/-- Embeds `status` (OsmService.js lines 651-698) driven by the capabilities
response: a failed fetch hands the callback the error and a null status, a
recorded rate-limit error is reported as rateLimited, and otherwise the api
attribute of the status element is returned.  The blocklist and waynode
updates touch fields outside this state. -/
def statusRun (s : OsmState) (resp : HttpResponse String) :
    OsmState × (Option ApiError × Option String) :=
  let cid := s.connectionID
  let s1 : OsmState := { s with connectionID := s.connectionID + resp.connBump }
  match resp.result with
  | Except.error e =>
      if e.status = 400 ∨ e.status = 401 ∨ e.status = 403 then
        (logout s1, (some e, none))
      else (s1, (some e, none))
  | Except.ok api =>
      if s1.connectionID ≠ cid then
        (s1, (some ⟨"Connection Switched", -1⟩, none))
      else if s1.rateLimitError.isSome then
        (s1, (s1.rateLimitError, some "rateLimited"))
      else (s1, (none, some api))

/-- Embeds `authenticate` (OsmService.js lines 1062-1083): the cached user
data is cleared up front, a successful OAuth flow stores a token (so
`authenticated()` becomes true), and on success with an unswitched
connection the rate-limit error is cleared, `authchange` fires and the user
changesets are eagerly reloaded. -/
def authenticateRun (s : OsmState) (resp : HttpResponse Unit) :
    OsmState × List ApiEvent × Option ApiError :=
  let cid := s.connectionID
  let s0 : OsmState := { s with userChangesets := false, userDetails := false }
  let s1 : OsmState := { s0 with connectionID := s0.connectionID + resp.connBump }
  match resp.result with
  | Except.error e => (s1, [], some e)
  | Except.ok _ =>
      let s2 : OsmState := { s1 with authenticated := true }
      if s2.connectionID ≠ cid then
        (s2, [], some ⟨"Connection Switched", -1⟩)
      else
        ({ s2 with rateLimitError := none },
         [ApiEvent.authchangeEv, ApiEvent.reqUserChangesets], none)

/-- Embeds `utilArrayUniq` of the sdk utilities (an external dependency):
deduplicate keeping first occurrences. -/
def utilArrayUniq (l : List String) : List String :=
  l.foldl (fun acc x => if x ∈ acc then acc else acc ++ [x]) []

/-- Embeds `utilArrayChunk` of the sdk utilities (an external dependency):
split a list into consecutive chunks of the given size.  The service always
chunks by 150; a zero size returns the list whole. -/
def utilArrayChunk (n : Nat) : List String → List (List String)
  | [] => []
  | x :: xs =>
      if h : n = 0 then [x :: xs]
      else (x :: xs).take n :: utilArrayChunk n ((x :: xs).drop n)
termination_by l => l.length
decreasing_by
  simp only [List.length_drop, List.length_cons]
  omega

/-- Events of `loadUsers`: the immediate callback carrying the cached user
records, and the chunked HTTP requests with the user IDs each carries. -/
inductive UsersEvent where
  | callbackCached (cached : List ParsedUser)
  | request (ids : List String)
deriving Repr, DecidableEq

/-- The lookup `this._userCache.user[uid]`. -/
def lookupUser (users : List (String × ParsedUser)) (uid : String) : Option ParsedUser :=
  (users.find? (fun p => p.1 == uid)).map Prod.snd

/-- The cache-partition loop of `loadUsers` (OsmService.js lines 548-555):
cached IDs are dropped from the toLoad queue and collected, the rest are
queued for the request. -/
def partitionUsers (users : List (String × ParsedUser)) :
    List String → List String → List String × List String × List ParsedUser
  | cacheToLoad, [] => (cacheToLoad, [], [])
  | cacheToLoad, uid :: rest =>
      match lookupUser users uid with
      | some u =>
          let r := partitionUsers users (cacheToLoad.filter (fun k => k != uid)) rest
          (r.1, r.2.1, u :: r.2.2)
      | none =>
          let r := partitionUsers users cacheToLoad rest
          (r.1, uid :: r.2.1, r.2.2)

/-- Embeds `loadUsers` (OsmService.js lines 544-575): the callback fires with
the cached records when some ID was cached or the client is
unauthenticated, an unauthenticated call issues no request, and the
remaining IDs are requested in chunks of 150. -/
def loadUsers (auth : Bool) (users : List (String × ParsedUser))
    (cacheToLoad : List String) (uids : List String) :
    List String × List UsersEvent :=
  let r := partitionUsers users cacheToLoad (utilArrayUniq uids)
  let cbEvs : List UsersEvent :=
    if r.2.2 ≠ [] ∨ auth = false then [UsersEvent.callbackCached r.2.2] else []
  if auth = false then (r.1, cbEvs)
  else (r.1, cbEvs ++ (utilArrayChunk 150 r.2.1).map UsersEvent.request)

end OsmService

namespace OsmService

/-- C2: each of `createChangeset`, `uploadChangeset` and `closeChangeset`
invokes its callback with status -2 when a changeset request is already
inflight, with status -3 when the client is not authenticated, and (for
upload and close) with status -4 when the given changeset ID differs from the
open changeset ID; in each case no HTTP request is issued and the state is
unchanged. -/
theorem C2_changeset_guard_errors (s : OsmState) (csid : Nat)
    (envC : HttpResponse Nat) (envU envX : HttpResponse Unit) :
    (s.csInflight = true →
      createChangeset s envC =
        (s, [CsEvent.callCreate], CsOutcome.failed ⟨"Changeset already inflight", -2⟩) ∧
      uploadChangeset s csid envU =
        (s, [CsEvent.callUpload], some ⟨"Changeset already inflight", -2⟩) ∧
      closeChangeset s csid envX =
        (s, [CsEvent.callClose], some ⟨"Changeset already inflight", -2⟩)) ∧
    (s.csInflight = false → s.authenticated = false →
      createChangeset s envC =
        (s, [CsEvent.callCreate], CsOutcome.failed ⟨"Not Authenticated", -3⟩) ∧
      uploadChangeset s csid envU =
        (s, [CsEvent.callUpload], some ⟨"Not Authenticated", -3⟩) ∧
      closeChangeset s csid envX =
        (s, [CsEvent.callClose], some ⟨"Not Authenticated", -3⟩)) ∧
    (s.csInflight = false → s.authenticated = true → s.openChangesetID ≠ some csid →
      uploadChangeset s csid envU =
        (s, [CsEvent.callUpload], some ⟨"Changeset ID mismatch", -4⟩) ∧
      closeChangeset s csid envX =
        (s, [CsEvent.callClose], some ⟨"Changeset ID mismatch", -4⟩)) := by
  refine ⟨fun h => ?_, fun h1 h2 => ?_, fun h1 h2 h3 => ?_⟩
  · simp [createChangeset, uploadChangeset, closeChangeset, h]
  · simp [createChangeset, uploadChangeset, closeChangeset, h1, h2]
  · simp [uploadChangeset, closeChangeset, h1, h2, h3]

/-- The trace of `createChangeset` contains exactly one lifecycle-call event,
namely `callCreate`. -/
theorem createChangeset_trace (s : OsmState) (env : HttpResponse Nat) :
    ((createChangeset s env).2.1).filter CsEvent.isCall = [CsEvent.callCreate] := by
  simp only [createChangeset]
  repeat' split
  all_goals simp [CsEvent.isCall]

/-- The trace of `uploadChangeset` contains exactly one lifecycle-call event,
namely `callUpload`. -/
theorem uploadChangeset_trace (s : OsmState) (csid : Nat) (env : HttpResponse Unit) :
    ((uploadChangeset s csid env).2.1).filter CsEvent.isCall = [CsEvent.callUpload] := by
  simp only [uploadChangeset]
  repeat' split
  all_goals simp [CsEvent.isCall]

/-- The trace of `closeChangeset` contains exactly one lifecycle-call event,
namely `callClose`. -/
theorem closeChangeset_trace (s : OsmState) (csid : Nat) (env : HttpResponse Unit) :
    ((closeChangeset s csid env).2.1).filter CsEvent.isCall = [CsEvent.callClose] := by
  simp only [closeChangeset]
  repeat' split
  all_goals simp [CsEvent.isCall]

/-- A membership consequence of the trace lemmas: an event of a given call kind
appears in a trace only if it survives the `isCall` filter. -/
theorem mem_of_filter_calls {tr : List CsEvent} {e : CsEvent}
    (he : CsEvent.isCall e = true) (h : e ∈ tr) : e ∈ tr.filter CsEvent.isCall :=
  List.mem_filter.mpr ⟨h, he⟩

/-- C1: `sendChangeset` performs the lifecycle strictly in order (the sequence
of lifecycle functions entered is a prefix of create, upload, close), stops at
the first failing step handing the user callback that error, attempts the
close only after a successful upload and only when the connection ID equals
the one captured at the start, and ends with the open changeset ID cleared
whenever the upload succeeded. -/
theorem C1_sendChangeset_lifecycle (s : OsmState) (env : SendEnv) :
    (((sendChangeset s env).2.1).filter CsEvent.isCall = [CsEvent.callCreate] ∨
     ((sendChangeset s env).2.1).filter CsEvent.isCall =
        [CsEvent.callCreate, CsEvent.callUpload] ∨
     ((sendChangeset s env).2.1).filter CsEvent.isCall =
        [CsEvent.callCreate, CsEvent.callUpload, CsEvent.callClose]) ∧
    (∀ s1 evs1 e, createChangeset s env.create = (s1, evs1, CsOutcome.failed e) →
        sendChangeset s env = (s1, evs1, UserCb.err e)) ∧
    (∀ s1 evs1 csid s2 evs2 e,
        createChangeset s env.create = (s1, evs1, CsOutcome.opened csid) →
        uploadChangeset s1 csid env.upload = (s2, evs2, some e) →
        sendChangeset s env = (s2, evs1 ++ evs2, UserCb.err e)) ∧
    (CsEvent.callClose ∈ (sendChangeset s env).2.1 →
        ∃ s1 evs1 csid s2 evs2,
          createChangeset s env.create = (s1, evs1, CsOutcome.opened csid) ∧
          uploadChangeset s1 csid env.upload = (s2, evs2, none) ∧
          s2.connectionID = s.connectionID) ∧
    (∀ csid, (sendChangeset s env).2.2 = UserCb.ok csid →
        (sendChangeset s env).1.openChangesetID = none) := by
  rcases h1 : createChangeset s env.create with ⟨s1, evs1, o1⟩
  have hc : List.filter CsEvent.isCall evs1 = [CsEvent.callCreate] := by
    have h := createChangeset_trace s env.create
    rw [h1] at h
    exact h
  cases o1 with
  | failed e =>
      have hsend : sendChangeset s env = (s1, evs1, UserCb.err e) := by
        simp [sendChangeset, h1]
      refine ⟨?_, ?_, ?_, ?_, ?_⟩
      · left; rw [hsend]; exact hc
      · intro s1' evs1' e' h'
        simp only [Prod.mk.injEq, CsOutcome.failed.injEq] at h'
        obtain ⟨rfl, rfl, rfl⟩ := h'
        exact hsend
      · intro s1' evs1' csid s2 evs2 e' h' _
        simp at h'
      · intro hmem
        rw [hsend] at hmem
        have h := mem_of_filter_calls (e := CsEvent.callClose) rfl hmem
        rw [hc] at h
        simp at h
      · intro csid h'
        rw [hsend] at h'
        simp at h'
  | opened csid =>
      rcases h2 : uploadChangeset s1 csid env.upload with ⟨s2, evs2, o2⟩
      have hu : List.filter CsEvent.isCall evs2 = [CsEvent.callUpload] := by
        have h := uploadChangeset_trace s1 csid env.upload
        rw [h2] at h
        exact h
      cases o2 with
      | some e =>
          have hsend : sendChangeset s env = (s2, evs1 ++ evs2, UserCb.err e) := by
            simp [sendChangeset, h1, h2]
          refine ⟨?_, ?_, ?_, ?_, ?_⟩
          · right; left
            rw [hsend]
            simp [List.filter_append, hc, hu]
          · intro s1' evs1' e' h'
            simp at h'
          · intro s1' evs1' csid' s2' evs2' e' h' h''
            simp only [Prod.mk.injEq, CsOutcome.opened.injEq] at h'
            obtain ⟨rfl, rfl, rfl⟩ := h'
            rw [h2] at h''
            simp only [Prod.mk.injEq, Option.some.injEq] at h''
            obtain ⟨rfl, rfl, rfl⟩ := h''
            exact hsend
          · intro hmem
            rw [hsend] at hmem
            have h := mem_of_filter_calls (e := CsEvent.callClose) rfl hmem
            rw [List.filter_append, hc, hu] at h
            simp at h
          · intro csid' h'
            rw [hsend] at h'
            simp at h'
      | none =>
          by_cases hconn : s2.connectionID = s.connectionID
          · rcases h3 : closeChangeset s2 csid env.close with ⟨s3, evs3, o3⟩
            have hx : List.filter CsEvent.isCall evs3 = [CsEvent.callClose] := by
              have h := closeChangeset_trace s2 csid env.close
              rw [h3] at h
              exact h
            have hsend : sendChangeset s env =
                ({ s3 with openChangesetID := none },
                 evs1 ++ evs2 ++ evs3, UserCb.ok csid) := by
              simp [sendChangeset, h1, h2, hconn, h3]
            refine ⟨?_, ?_, ?_, ?_, ?_⟩
            · right; right
              rw [hsend]
              simp [List.filter_append, hc, hu, hx]
            · intro s1' evs1' e' h'
              simp at h'
            · intro s1' evs1' csid' s2' evs2' e' h' h''
              simp only [Prod.mk.injEq, CsOutcome.opened.injEq] at h'
              obtain ⟨rfl, rfl, rfl⟩ := h'
              rw [h2] at h''
              simp at h''
            · intro _
              exact ⟨s1, evs1, csid, s2, evs2, rfl, h2, hconn⟩
            · intro csid' _
              rw [hsend]
          · have hsend : sendChangeset s env =
                ({ s2 with openChangesetID := none },
                 evs1 ++ evs2 ++ [], UserCb.ok csid) := by
              simp [sendChangeset, h1, h2, hconn]
            refine ⟨?_, ?_, ?_, ?_, ?_⟩
            · right; left
              rw [hsend]
              simp [List.filter_append, hc, hu]
            · intro s1' evs1' e' h'
              simp at h'
            · intro s1' evs1' csid' s2' evs2' e' h' h''
              simp only [Prod.mk.injEq, CsOutcome.opened.injEq] at h'
              obtain ⟨rfl, rfl, rfl⟩ := h'
              rw [h2] at h''
              simp at h''
            · intro hmem
              rw [hsend] at hmem
              have h := mem_of_filter_calls (e := CsEvent.callClose) rfl hmem
              rw [List.filter_append, List.filter_append, hc, hu] at h
              simp at h
            · intro csid' _
              rw [hsend]

/-- Witness for C1: a fully successful run at a concrete state and environment,
showing the lifecycle order conjunct and the cleared open changeset ID. -/
theorem C1_sendChangeset_lifecycle_witness :
    let s : OsmState :=
      { connectionID := 0, authenticated := true, userDetails := true,
        userChangesets := true, rateLimitError := none, cachedApiStatus := none,
        csInflight := false, openChangesetID := none }
    let env : SendEnv :=
      { create := ⟨0, Except.ok 11⟩, upload := ⟨0, Except.ok ()⟩,
        close := ⟨0, Except.ok ()⟩ }
    (sendChangeset s env).1.openChangesetID = none := by
  intro s env
  exact (C1_sendChangeset_lifecycle s env).2.2.2.2 11 (by decide)

/-- Witness for C2 at a concrete state with an inflight changeset request. -/
theorem C2_changeset_guard_errors_witness :
    let s : OsmState :=
      { connectionID := 0, authenticated := true, userDetails := true,
        userChangesets := true, rateLimitError := none, cachedApiStatus := none,
        csInflight := true, openChangesetID := some 7 }
    let env : HttpResponse Nat := ⟨0, Except.ok 9⟩
    let envU : HttpResponse Unit := ⟨0, Except.ok ()⟩
    createChangeset s env =
      (s, [CsEvent.callCreate], CsOutcome.failed ⟨"Changeset already inflight", -2⟩) := by
  intro s env envU
  exact ((C2_changeset_guard_errors s 7 env envU envU).1 rfl).1

end OsmService

namespace OsmService

/-- A tile ID that is loaded or inflight at the start of the note-tile loop is
never requested by the loop and remains loaded or inflight afterwards. -/
theorem loadNotesLoop_skips (blocked : Tile → Bool) (tiles : List Tile) :
    ∀ (cache : NoteCache) (id : String),
      (id ∈ cache.loaded ∨ id ∈ cache.inflight) →
      ((id ∈ (loadNotesLoop blocked cache tiles).1.loaded ∨
        id ∈ (loadNotesLoop blocked cache tiles).1.inflight) ∧
       id ∉ (loadNotesLoop blocked cache tiles).2) := by
  induction tiles with
  | nil =>
      intro cache id h
      simpa [loadNotesLoop] using h
  | cons t rest ih =>
      intro cache id h
      by_cases hskip : t.id ∈ cache.loaded ∨ t.id ∈ cache.inflight
      · simp only [loadNotesLoop, if_pos hskip]
        exact ih cache id h
      · by_cases hblk : blocked t
        · simp only [loadNotesLoop, if_neg hskip, if_pos hblk]
          refine ih _ id ?_
          rcases h with h | h
          · exact Or.inl (List.mem_cons_of_mem _ h)
          · exact Or.inr h
        · have hne : t.id ≠ id := by
            intro he
            subst he
            exact hskip h
          have h1 : id ∈ ({ cache with inflight := t.id :: cache.inflight } :
              NoteCache).loaded ∨
              id ∈ ({ cache with inflight := t.id :: cache.inflight } :
              NoteCache).inflight := by
            rcases h with h | h
            · exact Or.inl h
            · exact Or.inr (List.mem_cons_of_mem _ h)
          obtain ⟨ha, hb⟩ := ih _ id h1
          simp only [loadNotesLoop, if_neg hskip, if_neg hblk]
          refine ⟨ha, ?_⟩
          intro hmem
          rcases List.mem_cons.mp hmem with he | he
          · exact hne he.symm
          · exact hb he

/-- The note-tile loop keeps the inflight key list free of duplicates and
requests each tile ID at most once. -/
theorem loadNotesLoop_nodup (blocked : Tile → Bool) (tiles : List Tile) :
    ∀ cache : NoteCache, cache.inflight.Nodup →
      ((loadNotesLoop blocked cache tiles).1.inflight.Nodup ∧
       (loadNotesLoop blocked cache tiles).2.Nodup) := by
  induction tiles with
  | nil =>
      intro cache h
      simpa [loadNotesLoop] using h
  | cons t rest ih =>
      intro cache h
      by_cases hskip : t.id ∈ cache.loaded ∨ t.id ∈ cache.inflight
      · simp only [loadNotesLoop, if_pos hskip]
        exact ih cache h
      · by_cases hblk : blocked t
        · simp only [loadNotesLoop, if_neg hskip, if_pos hblk]
          exact ih _ h
        · have hni : t.id ∉ cache.inflight := fun hm => hskip (Or.inr hm)
          have h1 : (({ cache with inflight := t.id :: cache.inflight } :
              NoteCache)).inflight.Nodup := List.nodup_cons.mpr ⟨hni, h⟩
          obtain ⟨ha, hb⟩ := ih _ h1
          have hmem := loadNotesLoop_skips blocked rest
            { cache with inflight := t.id :: cache.inflight } t.id
            (Or.inr (List.mem_cons_self _ _))
          simp only [loadNotesLoop, if_neg hskip, if_neg hblk]
          exact ⟨ha, List.nodup_cons.mpr ⟨hmem.2, hb⟩⟩

/-- C3: `loadTile` issues no HTTP request and leaves the tile cache unchanged
when the tile is loaded or inflight, and preserves the uniqueness of inflight
tile IDs; `loadNotes` never requests a note tile that is loaded or inflight
and requests each tile ID at most once, also preserving inflight
uniqueness. -/
theorem C3_inflight_dedup (off : Bool) (blockedT : Bool) (blockedN : Tile → Bool)
    (tc : TileCache) (tile : Tile) (nc : NoteCache) (tiles : List Tile) :
    (tile.id ∈ tc.loaded ∨ tile.id ∈ tc.inflight →
       loadTile off blockedT tc tile = (tc, [])) ∧
    (tc.inflight.Nodup → ((loadTile off blockedT tc tile).1).inflight.Nodup) ∧
    (∀ t ∈ tiles, t.id ∈ nc.loaded ∨ t.id ∈ nc.inflight →
       t.id ∉ (loadNotes off blockedN nc tiles).2) ∧
    (nc.inflight.Nodup →
       (loadNotes off blockedN nc tiles).2.Nodup ∧
       ((loadNotes off blockedN nc tiles).1).inflight.Nodup) := by
  refine ⟨?_, ?_, ?_, ?_⟩
  · intro h
    by_cases hoff : off
    · simp [loadTile, hoff]
    · simp [loadTile, hoff, h]
  · intro h
    by_cases hoff : off
    · simpa [loadTile, hoff] using h
    · by_cases hmem : tile.id ∈ tc.loaded ∨ tile.id ∈ tc.inflight
      · simpa [loadTile, hoff, hmem] using h
      · by_cases hblk : blockedT
        · simpa [loadTile, hoff, hmem, hblk] using h
        · have hni : tile.id ∉ tc.inflight := fun hm => hmem (Or.inr hm)
          simp only [loadTile, if_neg hoff, if_neg hmem, if_neg hblk]
          exact List.nodup_cons.mpr ⟨hni, h⟩
  · intro t ht h
    by_cases hoff : off
    · simp [loadNotes, hoff]
    · simp only [loadNotes, if_neg hoff]
      refine (loadNotesLoop_skips blockedN tiles _ t.id ?_).2
      rcases h with h | h
      · exact Or.inl h
      · refine Or.inr ?_
        simp only [abortUnwantedNoteRequests]
        refine List.mem_filter.mpr ⟨h, ?_⟩
        simp only [Bool.or_eq_true, List.any_eq_true]
        exact Or.inr ⟨t, ht, by simp⟩
  · intro h
    by_cases hoff : off
    · simp [loadNotes, hoff, h]
    · simp only [loadNotes, if_neg hoff]
      have h0 : (abortUnwantedNoteRequests nc tiles).inflight.Nodup := by
        simp only [abortUnwantedNoteRequests]
        exact h.filter _
      obtain ⟨ha, hb⟩ := loadNotesLoop_nodup blockedN tiles _ h0
      exact ⟨hb, ha⟩

/-- Witness for C3 at a concrete cache where the tile is already inflight. -/
theorem C3_inflight_dedup_witness :
    let tc : TileCache :=
      { toLoad := [], loaded := [], inflight := ["16,100,200"], seen := [], rtree := [] }
    let tile : Tile := { id := "16,100,200", minX := 0, minY := 0, maxX := 1, maxY := 1 }
    let nc : NoteCache :=
      { toLoad := [], loaded := ["12,1,2"], inflight := [], inflightPost := [],
        note := [], closed := [], rtree := [] }
    let tiles : List Tile := [{ id := "12,1,2", minX := 0, minY := 0, maxX := 1, maxY := 1 }]
    loadTile false false tc tile = (tc, []) ∧
    "12,1,2" ∉ (loadNotes false (fun _ => false) nc tiles).2 := by
  intro tc tile nc tiles
  refine ⟨(C3_inflight_dedup false false (fun _ => false) tc tile nc tiles).1 ?_, ?_⟩
  · exact Or.inr (by simp [tc, tile])
  · exact (C3_inflight_dedup false false (fun _ => false) tc tile nc tiles).2.2.1
      { id := "12,1,2", minX := 0, minY := 0, maxX := 1, maxY := 1 }
      (by simp [tiles]) (Or.inl (by simp [nc]))

/-- C8: after a successful `gotTile` the tile is marked loaded, its tagged
bbox is in the RBush index, and `isDataLoaded` holds at every location inside
the tile extent; after a failed `gotTile` the tile is not marked loaded (if it
was not already) and the RBush index is unchanged. -/
theorem C8_loadTile_marks_loaded (cache : TileCache) (tile : Tile)
    (loc : ℚ × ℚ) (e : ApiError) :
    tile.id ∈ ((gotTile cache tile none).1).loaded ∧
    tile.bbox ∈ ((gotTile cache tile none).1).rtree ∧
    (tile.minX ≤ loc.1 → loc.1 ≤ tile.maxX → tile.minY ≤ loc.2 → loc.2 ≤ tile.maxY →
       isDataLoaded ((gotTile cache tile none).1) loc = true) ∧
    ((gotTile cache tile (some e)).1).rtree = cache.rtree ∧
    (tile.id ∉ cache.loaded → tile.id ∉ ((gotTile cache tile (some e)).1).loaded) := by
  refine ⟨?_, ?_, ?_, ?_, ?_⟩
  · simp [gotTile]
  · simp [gotTile]
  · intro h1 h2 h3 h4
    simp only [gotTile, isDataLoaded, List.any_append, List.any_cons, List.any_nil,
      Bool.or_eq_true]
    refine Or.inr ?_
    simp [boxIntersects, Tile.bbox, h1, h2, h3, h4]
  · simp [gotTile]
  · intro h
    simpa [gotTile] using h

/-- Witness for C8 at a concrete tile and an interior location. -/
theorem C8_loadTile_marks_loaded_witness :
    let cache : TileCache :=
      { toLoad := [], loaded := [], inflight := ["z"], seen := [], rtree := [] }
    let tile : Tile := { id := "z", minX := 0, minY := 10, maxX := 1, maxY := 11 }
    isDataLoaded ((gotTile cache tile none).1) ((1 : ℚ)/2, (21 : ℚ)/2) = true ∧
    "z" ∉ ((gotTile cache tile (some ⟨"err", 500⟩)).1).loaded := by
  intro cache tile
  refine ⟨(C8_loadTile_marks_loaded cache tile ((1 : ℚ)/2, (21 : ℚ)/2) ⟨"err", 500⟩).2.2.1
      (by norm_num [tile]) (by norm_num [tile]) (by norm_num [tile]) (by norm_num [tile]),
    (C8_loadTile_marks_loaded cache tile ((1 : ℚ)/2, (21 : ℚ)/2) ⟨"err", 500⟩).2.2.2.2
      (by simp [cache])⟩

end OsmService

namespace OsmService

/-- Folding `_getTags` over tag elements whose keys and values are their own
trims, with pairwise distinct keys that collide with nothing accumulated,
appends the pairs unchanged. -/
theorem getTags_foldl (ts : List (String × String)) :
    ∀ acc : List (String × String),
      (∀ p ∈ ts, jsTrim p.1 = p.1 ∧ p.1 ≠ "" ∧ jsTrim p.2 = p.2) →
      (ts.map Prod.fst).Nodup →
      (∀ p ∈ ts, acc.any (fun q => q.1 == p.1) = false) →
      List.foldl getTagsStep acc (ts.map (fun p => XmlTag.mk p.1 p.2)) = acc ++ ts := by
  induction ts with
  | nil =>
      intro acc _ _ _
      simp
  | cons hd tl ih =>
      intro acc hclean hnd hdisj
      obtain ⟨hk, hkne, hvv⟩ := hclean hd (List.mem_cons_self _ _)
      have hacc : acc.any (fun q => q.1 == hd.1) = false :=
        hdisj hd (List.mem_cons_self _ _)
      have hstep : getTagsStep acc (XmlTag.mk hd.1 hd.2) = acc ++ [hd] := by
        simp only [getTagsStep, hk, hvv, objSet]
        rw [if_pos hkne, hacc]
        simp
      have hnd2 : (tl.map Prod.fst).Nodup := (List.nodup_cons.mp hnd).2
      have hhd : hd.1 ∉ tl.map Prod.fst := (List.nodup_cons.mp hnd).1
      rw [List.map_cons, List.foldl_cons, hstep,
        ih (acc ++ [hd]) (fun p hp => hclean p (List.mem_cons_of_mem _ hp)) hnd2 ?_]
      · simp
      · intro p hp
        have h1 : acc.any (fun q => q.1 == p.1) = false :=
          hdisj p (List.mem_cons_of_mem _ hp)
        have h2 : hd.1 ≠ p.1 := by
          intro he
          exact hhd (he ▸ List.mem_map_of_mem Prod.fst hp)
        simp [List.any_append, h1, h2]

/-- On trim-clean tags with distinct keys, the XML tag parser is the
identity. -/
theorem getTags_clean (ts : List (String × String))
    (hclean : ∀ p ∈ ts, jsTrim p.1 = p.1 ∧ p.1 ≠ "" ∧ jsTrim p.2 = p.2)
    (hnd : (ts.map Prod.fst).Nodup) :
    getTags (ts.map (fun p => XmlTag.mk p.1 p.2)) = ts := by
  have h := getTags_foldl ts [] hclean hnd (by intro p _; simp)
  simpa [getTags] using h

/-- C5 (amended): for every versioned OSM element whose tag keys and values
are their own trims, with nonempty pairwise distinct keys, parsing the JSON
representation and parsing the equivalent XML representation produce equal
entities (same id, visibility, version, changeset, user fields, location,
tags, node list and member list).  Without the trim condition the claim
fails, see the counterexample. -/
theorem C5_parse_equivalence (obj : JsonElem) (uid : String) (n : Int)
    (hv : obj.version = some n)
    (ht : ∀ p ∈ obj.tags.getD [], jsTrim p.1 = p.1 ∧ p.1 ≠ "" ∧ jsTrim p.2 = p.2)
    (hnd : ((obj.tags.getD []).map Prod.fst).Nodup) :
    parseNodeJSON obj uid = parseNodeXML (xmlOfJSON "node" obj) uid ∧
    parseWayJSON obj uid = parseWayXML (xmlOfJSON "way" obj) uid ∧
    parseRelationJSON obj uid = parseRelationXML (xmlOfJSON "relation" obj) uid := by
  have htags : getTags ((obj.tags.getD []).map (fun p => XmlTag.mk p.1 p.2)) =
      obj.tags.getD [] := getTags_clean _ ht hnd
  have hvis2 : ∀ o : Option Bool,
      visibleOfAttr (o.map (fun b => if b then "true" else "false")) = o.getD true := by
    intro o
    cases o with
    | none => rfl
    | some b => cases b <;> simp [visibleOfAttr]
  refine ⟨?_, ?_, ?_⟩
  · simp [parseNodeJSON, parseNodeXML, xmlOfJSON, hv, htags, hvis2, getLoc]
  · simp [parseWayJSON, parseWayXML, xmlOfJSON, hv, htags, hvis2, getNodes,
      getNodesJSON, List.map_map, Function.comp]
  · simp [parseRelationJSON, parseRelationXML, xmlOfJSON, hv, htags, hvis2,
      getMembers, getMembersJSON, List.map_map, Function.comp]

/-- Witness for the amended C5 at a concrete versioned node with one clean
tag. -/
theorem C5_parse_equivalence_witness :
    let obj : JsonElem :=
      { type := "node", id := 7, visible := some true, version := some 3,
        changeset := some 12, timestamp := some "t", user := some "u",
        uid := some 99, lon := 1, lat := 2, tags := some [("highway", "residential")],
        nodes := none, members := none }
    parseNodeJSON obj "n7" = parseNodeXML (xmlOfJSON "node" obj) "n7" := by
  intro obj
  exact (C5_parse_equivalence obj "n7" 3 rfl (by decide) (by decide)).1

/-- Counterexample to C5 as stated: a node whose tag value has a leading
space parses differently from its XML representation, because `_getTags`
trims attribute values while the JSON path stores them raw. -/
theorem C5_counterexample :
    parseNodeJSON spacedTagNode "n1" ≠ parseNodeXML (xmlOfJSON "node" spacedTagNode) "n1" := by
  decide

end OsmService

namespace OsmService

/-- Removing a key that is not present leaves the key list unchanged. -/
theorem filter_bne_of_not_mem (l : List String) (a : String) (h : a ∉ l) :
    l.filter (fun k => k != a) = l :=
  List.filter_eq_self.mpr (fun b hb => by
    simp only [bne_iff_ne, ne_eq, decide_eq_true_eq]
    intro he
    exact h (he ▸ hb))

/-- A key present in an object stays present after an assignment. -/
theorem objSet_any_mono {α : Type} (m : List (String × α)) (k0 k : String) (v : α)
    (h : m.any (fun p => p.1 == k) = true) :
    (objSet m k0 v).any (fun p => p.1 == k) = true := by
  obtain ⟨p, hp, hpk⟩ := List.any_eq_true.mp h
  simp only [objSet]
  split
  · refine List.any_eq_true.mpr ?_
    by_cases hk0 : p.1 == k0
    · refine ⟨(k0, v), List.mem_map.mpr ⟨p, hp, by simp [hk0]⟩, ?_⟩
      have h1 : p.1 = k := by simpa using hpk
      have h2 : p.1 = k0 := by simpa using hk0
      simp [← h1, ← h2]
    · exact ⟨p, List.mem_map.mpr ⟨p, hp, by simp [hk0]⟩, hpk⟩
  · exact List.any_eq_true.mpr ⟨p, List.mem_append_left _ hp, hpk⟩

/-- After an assignment the assigned key is present. -/
theorem objSet_any_self {α : Type} (m : List (String × α)) (k : String) (v : α) :
    (objSet m k v).any (fun p => p.1 == k) = true := by
  simp only [objSet]
  split
  · rename_i h
    obtain ⟨p, hp, hpk⟩ := List.any_eq_true.mp h
    exact List.any_eq_true.mpr ⟨(k, v), List.mem_map.mpr ⟨p, hp, by simp [hpk]⟩, by simp⟩
  · exact List.any_eq_true.mpr ⟨(k, v), List.mem_append_right _ (by simp), by simp⟩

/-- The element loop only adds to the seen set. -/
theorem parseElementsJSON_seen_mono (els : List JsonElem) :
    ∀ seen a, a ∈ seen → a ∈ (parseElementsJSON true els seen).2 := by
  induction els with
  | nil =>
      intro seen a h
      simpa [parseElementsJSON] using h
  | cons el rest ih =>
      intro seen a h
      by_cases hp : hasJsonParser el.type = true
      · by_cases hs : fromOSM el.type (toString el.id) ∈ seen
        · simpa [parseElementsJSON, hp, hs] using ih seen a h
        · simpa [parseElementsJSON, hp, hs] using ih _ a (List.mem_cons_of_mem _ h)
      · simpa [parseElementsJSON, hp] using ih seen a h

end OsmService

namespace OsmService

/-- After the element loop, every parseable element of the input has its uid
in the seen set. -/
theorem parseElementsJSON_covers (els : List JsonElem) :
    ∀ seen, ∀ el ∈ els, hasJsonParser el.type = true →
      fromOSM el.type (toString el.id) ∈ (parseElementsJSON true els seen).2 := by
  induction els with
  | nil =>
      intro seen el h
      cases h
  | cons e rest ih =>
      intro seen el hel hp
      rcases List.mem_cons.mp hel with rfl | hel
      · by_cases hs : fromOSM el.type (toString el.id) ∈ seen
        · simpa [parseElementsJSON, hp, hs] using
            parseElementsJSON_seen_mono rest seen _ hs
        · simpa [parseElementsJSON, hp, hs] using
            parseElementsJSON_seen_mono rest _ _ (List.mem_cons_self _ _)
      · by_cases hp2 : hasJsonParser e.type = true
        · by_cases hs : fromOSM e.type (toString e.id) ∈ seen
          · simpa [parseElementsJSON, hp2, hs] using ih seen el hel hp
          · simpa [parseElementsJSON, hp2, hs] using ih _ el hel hp
        · simpa [parseElementsJSON, hp2] using ih seen el hel hp

/-- When every parseable uid is already seen, the element loop parses nothing
and leaves the seen set unchanged. -/
theorem parseElementsJSON_allseen (els : List JsonElem) :
    ∀ seen,
      (∀ el ∈ els, hasJsonParser el.type = true →
        fromOSM el.type (toString el.id) ∈ seen) →
      parseElementsJSON true els seen = ([], seen) := by
  induction els with
  | nil =>
      intro seen _
      rfl
  | cons e rest ih =>
      intro seen hall
      by_cases hp : hasJsonParser e.type = true
      · have hs : fromOSM e.type (toString e.id) ∈ seen :=
          hall e (List.mem_cons_self _ _) hp
        simpa [parseElementsJSON, hp, hs] using
          ih seen (fun el hel hp2 => hall el (List.mem_cons_of_mem _ hel) hp2)
      · simpa [parseElementsJSON, hp] using
          ih seen (fun el hel hp2 => hall el (List.mem_cons_of_mem _ hel) hp2)

/-- The user loop only removes entries from the toLoad queue. -/
theorem parseUsersJSON_toLoad_sub (us : List JsonUser) :
    ∀ tl users x, x ∈ (parseUsersJSON true us tl users).2.1 → x ∈ tl := by
  induction us with
  | nil =>
      intro tl users x h
      simpa [parseUsersJSON] using h
  | cons u rest ih =>
      intro tl users x h
      cases hid : u.id with
      | none =>
          simp only [parseUsersJSON, hid] at h
          exact ih tl users x h
      | some n =>
          by_cases hc : users.any (fun p => p.1 == toString n) = true
          · simp only [parseUsersJSON, hid] at h
            rw [if_pos (by simp [hc])] at h
            exact List.mem_of_mem_filter (ih _ users x h)
          · simp only [parseUsersJSON, hid] at h
            rw [if_neg (by simp [hc])] at h
            exact List.mem_of_mem_filter (ih _ _ x h)

/-- A key present in the user cache stays present through the user loop. -/
theorem parseUsersJSON_users_mono (us : List JsonUser) :
    ∀ tl users k, users.any (fun p => p.1 == k) = true →
      (parseUsersJSON true us tl users).2.2.any (fun p => p.1 == k) = true := by
  induction us with
  | nil =>
      intro tl users k h
      simpa [parseUsersJSON] using h
  | cons u rest ih =>
      intro tl users k h
      cases hid : u.id with
      | none =>
          simp only [parseUsersJSON, hid]
          exact ih tl users k h
      | some n =>
          by_cases hc : users.any (fun p => p.1 == toString n) = true
          · simp only [parseUsersJSON, hid]
            rw [if_pos (by simp [hc])]
            exact ih _ users k h
          · simp only [parseUsersJSON, hid]
            rw [if_neg (by simp [hc])]
            exact ih _ _ k (objSet_any_mono users (toString n) k _ h)

/-- After the user loop, every user of the input that has an id is cached and
its uid is gone from the toLoad queue. -/
theorem parseUsersJSON_covers (us : List JsonUser) :
    ∀ tl users, ∀ u ∈ us, ∀ n : Int, u.id = some n →
      ((parseUsersJSON true us tl users).2.2.any
          (fun p => p.1 == toString n) = true ∧
       toString n ∉ (parseUsersJSON true us tl users).2.1) := by
  induction us with
  | nil =>
      intro tl users u h
      cases h
  | cons u0 rest ih =>
      intro tl users u hu n hn
      have hnotin : ∀ tl2 : List String,
          toString n ∉ tl2.filter (fun k => k != toString n) := by
        intro tl2 hmem
        have := List.of_mem_filter hmem
        simp at this
      rcases List.mem_cons.mp hu with rfl | hu
      · by_cases hc : users.any (fun p => p.1 == toString n) = true
        · constructor
          · simp only [parseUsersJSON, hn]
            rw [if_pos (by simp [hc])]
            exact parseUsersJSON_users_mono rest _ users _ hc
          · simp only [parseUsersJSON, hn]
            rw [if_pos (by simp [hc])]
            intro hmem
            exact hnotin tl (parseUsersJSON_toLoad_sub rest _ users _ hmem)
        · constructor
          · simp only [parseUsersJSON, hn]
            rw [if_neg (by simp [hc])]
            exact parseUsersJSON_users_mono rest _ _ _
              (objSet_any_self users (toString n) _)
          · simp only [parseUsersJSON, hn]
            rw [if_neg (by simp [hc])]
            intro hmem
            exact hnotin tl (parseUsersJSON_toLoad_sub rest _ _ _ hmem)
      · cases hid : u0.id with
        | none =>
            simp only [parseUsersJSON, hid]
            exact ih tl users u hu n hn
        | some m =>
            by_cases hc : users.any (fun p => p.1 == toString m) = true
            · simp only [parseUsersJSON, hid]
              rw [if_pos (by simp [hc])]
              exact ih _ users u hu n hn
            · simp only [parseUsersJSON, hid]
              rw [if_neg (by simp [hc])]
              exact ih _ _ u hu n hn

/-- When every user of the input is cached and absent from the toLoad queue,
the user loop parses nothing and leaves the cache unchanged. -/
theorem parseUsersJSON_allcached (us : List JsonUser) :
    ∀ tl users,
      (∀ u ∈ us, ∀ n : Int, u.id = some n →
        users.any (fun p => p.1 == toString n) = true ∧ toString n ∉ tl) →
      parseUsersJSON true us tl users = ([], tl, users) := by
  induction us with
  | nil =>
      intro tl users _
      rfl
  | cons u rest ih =>
      intro tl users hall
      cases hid : u.id with
      | none =>
          simp only [parseUsersJSON, hid]
          exact ih tl users (fun v hv n hn => hall v (List.mem_cons_of_mem _ hv) n hn)
      | some n =>
          obtain ⟨hc, htl⟩ := hall u (List.mem_cons_self _ _) n hid
          have hfl : tl.filter (fun k => k != toString n) = tl :=
            filter_bne_of_not_mem tl _ htl
          simp only [parseUsersJSON, hid]
          rw [if_pos (by simp [hc]), hfl]
          exact ih tl users (fun v hv m hm => hall v (List.mem_cons_of_mem _ hv) m hm)

end OsmService

namespace OsmService

/-- The XML child loop only adds to the seen set. -/
theorem parseXMLChildren_seen_mono (cs : List XmlChild) :
    ∀ st nc a, a ∈ st.tileSeen → a ∈ (parseXMLChildren true cs st nc).2.1.tileSeen := by
  induction cs with
  | nil =>
      intro st nc a h
      simpa [parseXMLChildren] using h
  | cons c rest ih =>
      intro st nc a h
      cases c with
      | entity x =>
          by_cases hg : (x.name == "node" || x.name == "way" || x.name == "relation") = true
          · by_cases hs : fromOSM x.name x.id ∈ st.tileSeen
            · simpa [parseXMLChildren, hg, hs] using ih st nc a h
            · simpa [parseXMLChildren, hg, hs] using
                ih { st with tileSeen := fromOSM x.name x.id :: st.tileSeen } nc a
                  (List.mem_cons_of_mem _ h)
          · simpa [parseXMLChildren, hg] using ih st nc a h
      | user uid xu =>
          by_cases hc : st.users.any (fun p => p.1 == uid) = true
          · simpa [parseXMLChildren, hc] using
              ih { st with userToLoad := st.userToLoad.filter (fun k => k != uid) } nc a h
          · simpa [parseXMLChildren, hc] using
              ih { st with users := objSet st.users uid (parseUserXML xu uid),
                           userToLoad := st.userToLoad.filter (fun k => k != uid) } nc a h
      | note x =>
          simpa [parseXMLChildren] using ih st (parseNoteXML nc x x.id).1 a h
      | other name =>
          simpa [parseXMLChildren] using ih st nc a h

/-- A key present in the user cache stays present through the XML child
loop. -/
theorem parseXMLChildren_users_mono (cs : List XmlChild) :
    ∀ st nc k, st.users.any (fun p => p.1 == k) = true →
      (parseXMLChildren true cs st nc).2.1.users.any (fun p => p.1 == k) = true := by
  induction cs with
  | nil =>
      intro st nc k h
      simpa [parseXMLChildren] using h
  | cons c rest ih =>
      intro st nc k h
      cases c with
      | entity x =>
          by_cases hg : (x.name == "node" || x.name == "way" || x.name == "relation") = true
          · by_cases hs : fromOSM x.name x.id ∈ st.tileSeen
            · simpa [parseXMLChildren, hg, hs] using ih st nc k h
            · simpa [parseXMLChildren, hg, hs] using
                ih { st with tileSeen := fromOSM x.name x.id :: st.tileSeen } nc k h
          · simpa [parseXMLChildren, hg] using ih st nc k h
      | user uid xu =>
          by_cases hc : st.users.any (fun p => p.1 == uid) = true
          · simpa [parseXMLChildren, hc] using
              ih { st with userToLoad := st.userToLoad.filter (fun j => j != uid) } nc k h
          · simpa [parseXMLChildren, hc] using
              ih { st with users := objSet st.users uid (parseUserXML xu uid),
                           userToLoad := st.userToLoad.filter (fun j => j != uid) } nc k
                (objSet_any_mono st.users uid k _ h)
      | note x =>
          simpa [parseXMLChildren] using ih st (parseNoteXML nc x x.id).1 k h
      | other name =>
          simpa [parseXMLChildren] using ih st nc k h

/-- The XML child loop only removes entries from the toLoad queue. -/
theorem parseXMLChildren_toLoad_sub (cs : List XmlChild) :
    ∀ st nc x, x ∈ (parseXMLChildren true cs st nc).2.1.userToLoad →
      x ∈ st.userToLoad := by
  induction cs with
  | nil =>
      intro st nc x h
      simpa [parseXMLChildren] using h
  | cons c rest ih =>
      intro st nc x h
      cases c with
      | entity e =>
          by_cases hg : (e.name == "node" || e.name == "way" || e.name == "relation") = true
          · by_cases hs : fromOSM e.name e.id ∈ st.tileSeen
            · simp only [parseXMLChildren] at h
              rw [if_pos hg, if_pos (And.intro trivial hs)] at h
              exact ih st nc x h
            · simp only [parseXMLChildren] at h
              rw [if_pos hg, if_neg (fun hcon => hs hcon.2), if_pos trivial] at h
              have h2 := ih _ nc x h
              exact h2
          · simp only [parseXMLChildren] at h
            rw [if_neg hg] at h
            exact ih st nc x h
      | user uid xu =>
          by_cases hc : st.users.any (fun p => p.1 == uid) = true
          · simp only [parseXMLChildren] at h
            rw [if_pos (And.intro trivial hc)] at h
            exact List.mem_of_mem_filter (ih _ nc x h)
          · simp only [parseXMLChildren] at h
            rw [if_neg (fun hcon => hc hcon.2)] at h
            have h2 := ih _ nc x h
            exact List.mem_of_mem_filter h2
      | note e =>
          simp only [parseXMLChildren] at h
          exact ih st _ x h
      | other name =>
          simp only [parseXMLChildren] at h
          exact ih st nc x h

/-- After the XML child loop, every parseable entity child has its uid in the
seen set. -/
theorem parseXMLChildren_covers_entity (cs : List XmlChild) :
    ∀ st nc x, XmlChild.entity x ∈ cs →
      (x.name == "node" || x.name == "way" || x.name == "relation") = true →
      fromOSM x.name x.id ∈ (parseXMLChildren true cs st nc).2.1.tileSeen := by
  induction cs with
  | nil =>
      intro st nc x h
      cases h
  | cons c rest ih =>
      intro st nc x hx hg
      rcases List.mem_cons.mp hx with heq | hmem
      · cases heq
        by_cases hs : fromOSM x.name x.id ∈ st.tileSeen
        · simpa [parseXMLChildren, hg, hs] using parseXMLChildren_seen_mono rest st nc _ hs
        · simpa [parseXMLChildren, hg, hs] using
            parseXMLChildren_seen_mono rest
              { st with tileSeen := fromOSM x.name x.id :: st.tileSeen } nc _
              (List.mem_cons_self _ _)
      · clear hx
        cases c with
        | entity e =>
            by_cases hg2 : (e.name == "node" || e.name == "way" || e.name == "relation") = true
            · by_cases hs : fromOSM e.name e.id ∈ st.tileSeen
              · simpa [parseXMLChildren, hg2, hs] using ih st nc x hmem hg
              · simpa [parseXMLChildren, hg2, hs] using ih _ nc x hmem hg
            · simpa [parseXMLChildren, hg2] using ih st nc x hmem hg
        | user uid xu =>
            by_cases hc : st.users.any (fun p => p.1 == uid) = true
            · simpa [parseXMLChildren, hc] using ih _ nc x hmem hg
            · simpa [parseXMLChildren, hc] using ih _ nc x hmem hg
        | note e =>
            simpa [parseXMLChildren] using ih st _ x hmem hg
        | other name =>
            simpa [parseXMLChildren] using ih st nc x hmem hg

/-- After the XML child loop, every user child is cached and its uid is gone
from the toLoad queue. -/
theorem parseXMLChildren_covers_user (cs : List XmlChild) :
    ∀ st nc uid xu, XmlChild.user uid xu ∈ cs →
      ((parseXMLChildren true cs st nc).2.1.users.any (fun p => p.1 == uid) = true ∧
       uid ∉ (parseXMLChildren true cs st nc).2.1.userToLoad) := by
  induction cs with
  | nil =>
      intro st nc uid xu h
      cases h
  | cons c rest ih =>
      intro st nc uid xu hx
      have hnotin : ∀ tl2 : List String, uid ∉ tl2.filter (fun k => k != uid) := by
        intro tl2 hmem
        have := List.of_mem_filter hmem
        simp at this
      rcases List.mem_cons.mp hx with heq | hmem2
      · cases heq
        by_cases hc : st.users.any (fun p => p.1 == uid) = true
        · constructor
          · simpa [parseXMLChildren, hc] using
              parseXMLChildren_users_mono rest
                { st with userToLoad := st.userToLoad.filter (fun k => k != uid) } nc uid hc
          · simp only [parseXMLChildren]
            rw [if_pos (by simp [hc])]
            intro hmem
            exact hnotin _ (parseXMLChildren_toLoad_sub rest _ nc uid hmem)
        · constructor
          · simpa [parseXMLChildren, hc] using
              parseXMLChildren_users_mono rest
                { st with users := objSet st.users uid (parseUserXML xu uid),
                          userToLoad := st.userToLoad.filter (fun k => k != uid) } nc uid
                (objSet_any_self st.users uid _)
          · simp only [parseXMLChildren]
            rw [if_neg (by simp [hc])]
            intro hmem
            exact hnotin _ (parseXMLChildren_toLoad_sub rest _ nc uid
              (by simpa using hmem))
      · clear hx
        cases c with
        | entity e =>
            by_cases hg2 : (e.name == "node" || e.name == "way" || e.name == "relation") = true
            · by_cases hs : fromOSM e.name e.id ∈ st.tileSeen
              · simpa [parseXMLChildren, hg2, hs] using ih st nc uid xu hmem2
              · simpa [parseXMLChildren, hg2, hs] using ih _ nc uid xu hmem2
            · simpa [parseXMLChildren, hg2] using ih st nc uid xu hmem2
        | user uid2 xu2 =>
            by_cases hc : st.users.any (fun p => p.1 == uid2) = true
            · simpa [parseXMLChildren, hc] using ih _ nc uid xu hmem2
            · simpa [parseXMLChildren, hc] using ih _ nc uid xu hmem2
        | note e =>
            simpa [parseXMLChildren] using ih st _ uid xu hmem2
        | other name =>
            simpa [parseXMLChildren] using ih st nc uid xu hmem2

/-- When every parseable entity child is already seen, every user child is
cached and dequeued, and no child is a note, the XML child loop parses
nothing and leaves everything unchanged. -/
theorem parseXMLChildren_fixpoint (cs : List XmlChild) :
    ∀ st nc,
      (∀ x : XmlElem, XmlChild.entity x ∈ cs →
        (x.name == "node" || x.name == "way" || x.name == "relation") = true →
        fromOSM x.name x.id ∈ st.tileSeen) →
      (∀ (uid : String) (xu : XmlUser), XmlChild.user uid xu ∈ cs →
        st.users.any (fun p => p.1 == uid) = true ∧ uid ∉ st.userToLoad) →
      (∀ c ∈ cs, c.isNote = false) →
      parseXMLChildren true cs st nc = ([], st, nc) := by
  induction cs with
  | nil =>
      intro st nc _ _ _
      rfl
  | cons c rest ih =>
      intro st nc hent huser hn
      have hrest := fun x hx hg => hent x (List.mem_cons_of_mem _ hx) hg
      have hurest := fun uid xu hx => huser uid xu (List.mem_cons_of_mem _ hx)
      have hnrest := fun d hd => hn d (List.mem_cons_of_mem _ hd)
      cases c with
      | entity x =>
          by_cases hg : (x.name == "node" || x.name == "way" || x.name == "relation") = true
          · have hs : fromOSM x.name x.id ∈ st.tileSeen :=
              hent x (List.mem_cons_self _ _) hg
            simpa [parseXMLChildren, hg, hs] using ih st nc hrest hurest hnrest
          · simpa [parseXMLChildren, hg] using ih st nc hrest hurest hnrest
      | user uid xu =>
          obtain ⟨hc, htl⟩ := huser uid xu (List.mem_cons_self _ _)
          have hfl : st.userToLoad.filter (fun k => k != uid) = st.userToLoad :=
            filter_bne_of_not_mem _ _ htl
          have hst : ({ st with userToLoad :=
              st.userToLoad.filter (fun k => k != uid) } : ParseState) = st := by
            rw [hfl]
          simp only [parseXMLChildren]
          rw [if_pos (by simp [hc]), hst]
          exact ih st nc hrest hurest hnrest
      | note x =>
          have := hn (XmlChild.note x) (List.mem_cons_self _ _)
          simp [XmlChild.isNote] at this
      | other name =>
          simpa [parseXMLChildren] using ih st nc hrest hurest hnrest

end OsmService

namespace OsmService

/-- C4: re-fetching is idempotent.  With skipSeen on, every entity whose uid
is recorded in the tile-cache seen set is skipped, so parsing the same tile
payload a second time (starting from the state the first parse produced)
yields no data and leaves the state unchanged; the same holds for the XML
parse path on tile payloads (payloads without notes; tile payloads carry no
changesets either). -/
theorem C4_skipSeen_idempotent (p : JsonPayload) (st : ParseState)
    (children : List XmlChild) (nc : NoteCache)
    (hcs : p.changesets = [])
    (hnote : ∀ c ∈ children, c.isNote = false) :
    (∀ d1 st1, parseJSONModel true p st = Except.ok (d1, st1) →
        parseJSONModel true p st1 = Except.ok ([], st1)) ∧
    (∀ d1 st1 nc1, parseXMLChildren true children st nc = (d1, st1, nc1) →
        parseXMLChildren true children st1 nc1 = ([], st1, nc1)) := by
  constructor
  · intro d1 st1 h
    by_cases herr : p.elements.any (fun el => el.type == "error") = true
    · rw [parseJSONModel, if_pos herr] at h
      simp at h
    · rw [parseJSONModel, if_neg herr] at h
      simp only [Except.ok.injEq, Prod.mk.injEq] at h
      obtain ⟨hd1, hst⟩ := h
      subst hst
      rw [parseJSONModel, if_neg herr]
      have he := parseElementsJSON_allseen p.elements
        (parseElementsJSON true p.elements st.tileSeen).2
        (fun el hel hp => parseElementsJSON_covers p.elements st.tileSeen el hel hp)
      have hu := parseUsersJSON_allcached p.users
        (parseUsersJSON true p.users st.userToLoad st.users).2.1
        (parseUsersJSON true p.users st.userToLoad st.users).2.2
        (fun u huu n hn => parseUsersJSON_covers p.users st.userToLoad st.users u huu n hn)
      simp [he, hu, hcs, parseChangesetsJSON]
  · intro d1 st1 nc1 h
    have hfix := parseXMLChildren_fixpoint children
      (parseXMLChildren true children st nc).2.1
      (parseXMLChildren true children st nc).2.2
      (fun x hx hg => parseXMLChildren_covers_entity children st nc x hx hg)
      (fun uid xu hx => parseXMLChildren_covers_user children st nc uid xu hx)
      hnote
    rw [h] at hfix
    simpa using hfix

/-- Witness for C4: re-parsing a one-node tile payload from the state the
first parse produced yields no data and the same state. -/
theorem C4_skipSeen_idempotent_witness :
    let el : JsonElem :=
      { type := "node", id := 1, visible := none, version := some 1, changeset := none,
        timestamp := none, user := none, uid := none, lon := 0, lat := 0,
        tags := none, nodes := none, members := none }
    let p : JsonPayload := { elements := [el], users := [], changesets := [] }
    let st0 : ParseState := { tileSeen := [], userToLoad := [], users := [] }
    let st1 : ParseState := { tileSeen := ["n1"], userToLoad := [], users := [] }
    parseJSONModel true p st1 = Except.ok ([], st1) := by
  intro el p st0 st1
  refine (C4_skipSeen_idempotent p st0 []
      ⟨[], [], [], [], [], [], []⟩ rfl (fun c hc => by cases hc)).1
    [ParsedItem.entity (parseNodeJSON el "n1")] st1 ?_
  rfl

end OsmService

namespace OsmService

/-- C6 (amended): an unauthenticated request failing with 429 or 509 while no
rate-limit error is recorded makes the service record the error, emit
authchange and trigger a throttled status reload; while a rate-limit error is
recorded, a `status` call whose capabilities fetch succeeds (on an unswitched
connection) hands its callback that error and the value rateLimited; a
successful `authenticate` clears the recorded error, emits authchange and
reports success.  As literally stated the middle part fails when the
capabilities fetch itself errors, see the counterexample. -/
theorem C6_rate_limit_recovery (s : OsmState) (path : String) (e : ApiError)
    (rest : List (HttpResponse Unit)) (apiVal : String) :
    (s.authenticated = false → s.rateLimitError = none →
      (e.status = 429 ∨ e.status = 509) →
      loadFromAPIRun path s (⟨0, Except.error e⟩ :: rest) =
        ({ s with rateLimitError := some e },
         [ApiEvent.httpRequest path, ApiEvent.authchangeEv,
          ApiEvent.throttledReloadEv, ApiEvent.cbError e])) ∧
    (∀ err : ApiError, s.rateLimitError = some err →
      (statusRun s ⟨0, Except.ok apiVal⟩).2 = (some err, some "rateLimited")) ∧
    ((authenticateRun s ⟨0, Except.ok ()⟩).1.rateLimitError = none ∧
     (authenticateRun s ⟨0, Except.ok ()⟩).2.2 = none ∧
     ApiEvent.authchangeEv ∈ (authenticateRun s ⟨0, Except.ok ()⟩).2.1) := by
  refine ⟨?_, ?_, ?_⟩
  · intro hauth hrl hst
    rcases hst with h | h <;> simp [loadFromAPIRun, hauth, hrl, h]
  · intro err herr
    simp [statusRun, herr]
  · refine ⟨?_, ?_, ?_⟩ <;> simp [authenticateRun]

/-- Witness for C6 at a concrete unauthenticated state receiving a 429. -/
theorem C6_rate_limit_recovery_witness :
    let s : OsmState :=
      { connectionID := 0, authenticated := false, userDetails := false,
        userChangesets := false, rateLimitError := none,
        cachedApiStatus := none, csInflight := false, openChangesetID := none }
    let e : ApiError := ⟨"Too Many Requests", 429⟩
    loadFromAPIRun "/api/0.6/map.json" s [⟨0, Except.error e⟩] =
      ({ s with rateLimitError := some e },
       [ApiEvent.httpRequest "/api/0.6/map.json", ApiEvent.authchangeEv,
        ApiEvent.throttledReloadEv, ApiEvent.cbError e]) := by
  intro s e
  exact (C6_rate_limit_recovery s "/api/0.6/map.json" e [] "online").1 rfl rfl
    (Or.inl rfl)

/-- Counterexample to C6 as stated: with a rate-limit error recorded, a
`status` call whose capabilities fetch fails hands its callback the fetch
error and a null status, not the recorded error and rateLimited. -/
theorem C6_counterexample :
    let s : OsmState :=
      { connectionID := 0, authenticated := false, userDetails := false,
        userChangesets := false,
        rateLimitError := some ⟨"Bandwidth Limit Exceeded", 509⟩,
        cachedApiStatus := none, csInflight := false, openChangesetID := none }
    (statusRun s ⟨0, Except.error ⟨"Internal Server Error", 500⟩⟩).2 ≠
      (some ⟨"Bandwidth Limit Exceeded", 509⟩, some "rateLimited") := by
  intro s
  decide

/-- C7: when the client is authenticated and a request fails with 400, 401 or
403, the service logs out (clearing the cached user details and changesets)
and reissues the request with the same path (the model reuses the same
callback and options by construction); the retried request runs
unauthenticated, so a second such failure reaches the callback without
another retry: the trace holds exactly two requests and ignores any further
responses. -/
theorem C7_retry_after_auth_failure (s : OsmState) (path : String)
    (e1 e2 : ApiError) (rest : List (HttpResponse Unit))
    (hauth : s.authenticated = true)
    (h1 : e1.status = 400 ∨ e1.status = 401 ∨ e1.status = 403)
    (h2 : e2.status = 400 ∨ e2.status = 401 ∨ e2.status = 403) :
    (loadFromAPIRun path s
        (⟨0, Except.error e1⟩ :: ⟨0, Except.error e2⟩ :: rest)).2 =
      [ApiEvent.httpRequest path, ApiEvent.authchangeEv, ApiEvent.httpRequest path] ++
      (if s.cachedApiStatus = some "online" then [ApiEvent.throttledReloadEv] else []) ++
      [ApiEvent.cbError e2] ∧
    (loadFromAPIRun path s
        (⟨0, Except.error e1⟩ :: ⟨0, Except.error e2⟩ :: rest)).1.authenticated = false ∧
    (loadFromAPIRun path s
        (⟨0, Except.error e1⟩ :: ⟨0, Except.error e2⟩ :: rest)).1.userDetails = false ∧
    (loadFromAPIRun path s
        (⟨0, Except.error e1⟩ :: ⟨0, Except.error e2⟩ :: rest)).1.userChangesets = false := by
  have hnot : ¬(e2.status = 509 ∨ e2.status = 429) := by
    rcases h2 with h | h | h <;> simp [h]
  by_cases hon : s.cachedApiStatus = some "online"
  · refine ⟨?_, ?_, ?_, ?_⟩ <;>
      simp [loadFromAPIRun, hauth, h1, logout, hnot, hon]
  · refine ⟨?_, ?_, ?_, ?_⟩ <;>
      simp [loadFromAPIRun, hauth, h1, logout, hnot, hon]

/-- Witness for C7 at a concrete authenticated state and two 401 failures. -/
theorem C7_retry_after_auth_failure_witness :
    let s : OsmState :=
      { connectionID := 0, authenticated := true, userDetails := true,
        userChangesets := true, rateLimitError := none,
        cachedApiStatus := none, csInflight := false, openChangesetID := none }
    let e : ApiError := ⟨"Unauthorized", 401⟩
    (loadFromAPIRun "/api/0.6/user/details.json" s
        [⟨0, Except.error e⟩, ⟨0, Except.error e⟩]).2 =
      [ApiEvent.httpRequest "/api/0.6/user/details.json", ApiEvent.authchangeEv,
       ApiEvent.httpRequest "/api/0.6/user/details.json", ApiEvent.cbError e] := by
  intro s e
  have h := (C7_retry_after_auth_failure s "/api/0.6/user/details.json" e e [] rfl
    (Or.inr (Or.inl rfl)) (Or.inr (Or.inl rfl))).1
  simpa using h

end OsmService

namespace OsmService

/-- Membership is preserved by the dedup fold of `utilArrayUniq`. -/
theorem utilArrayUniq_mem_go (l : List String) :
    ∀ acc x, (x ∈ acc ∨ x ∈ l) →
      x ∈ l.foldl (fun acc y => if y ∈ acc then acc else acc ++ [y]) acc := by
  induction l with
  | nil =>
      intro acc x h
      rcases h with h | h
      · simpa using h
      · cases h
  | cons y rest ih =>
      intro acc x h
      simp only [List.foldl_cons]
      apply ih
      by_cases hy : y ∈ acc
      · rw [if_pos hy]
        rcases h with h | h
        · exact Or.inl h
        · rcases List.mem_cons.mp h with rfl | h
          · exact Or.inl hy
          · exact Or.inr h
      · rw [if_neg hy]
        rcases h with h | h
        · exact Or.inl (List.mem_append_left _ h)
        · rcases List.mem_cons.mp h with rfl | h
          · exact Or.inl (List.mem_append_right _ (by simp))
          · exact Or.inr h

/-- `utilArrayUniq` keeps every member of its input. -/
theorem utilArrayUniq_mem (l : List String) (x : String) (h : x ∈ l) :
    x ∈ utilArrayUniq l :=
  utilArrayUniq_mem_go l [] x (Or.inr h)

/-- Every ID the partition queues for a request is uncached. -/
theorem partitionUsers_toLoad_uncached (users : List (String × ParsedUser))
    (uidl : List String) :
    ∀ ctl id, id ∈ (partitionUsers users ctl uidl).2.1 →
      lookupUser users id = none := by
  induction uidl with
  | nil =>
      intro ctl id h
      simp [partitionUsers] at h
  | cons uid rest ih =>
      intro ctl id h
      cases hlk : lookupUser users uid with
      | some u =>
          simp only [partitionUsers, hlk] at h
          exact ih _ id h
      | none =>
          simp only [partitionUsers, hlk] at h
          rcases List.mem_cons.mp h with rfl | h
          · exact hlk
          · exact ih _ id h

/-- If some requested ID is cached, the partition collects at least one
cached record. -/
theorem partitionUsers_cached_ne_nil (users : List (String × ParsedUser))
    (uidl : List String) :
    ∀ ctl uid, uid ∈ uidl → lookupUser users uid ≠ none →
      (partitionUsers users ctl uidl).2.2 ≠ [] := by
  induction uidl with
  | nil =>
      intro ctl uid h
      cases h
  | cons u0 rest ih =>
      intro ctl uid hmem hlk
      cases hlk0 : lookupUser users u0 with
      | some u =>
          simp [partitionUsers, hlk0]
      | none =>
          rcases List.mem_cons.mp hmem with rfl | hmem
          · exact absurd hlk0 hlk
          · simp only [partitionUsers, hlk0]
            exact ih _ uid hmem hlk

/-- Every chunk produced by `utilArrayChunk 150` has at most 150 elements,
all drawn from the input list. -/
theorem utilArrayChunk_spec :
    ∀ (k : Nat) (l : List String), l.length ≤ k →
      ∀ c ∈ utilArrayChunk 150 l, c.length ≤ 150 ∧ ∀ x ∈ c, x ∈ l := by
  intro k
  induction k with
  | zero =>
      intro l hl c hc
      have h0 : l = [] := List.length_eq_zero.mp (Nat.le_zero.mp hl)
      subst h0
      simp [utilArrayChunk] at hc
  | succ k ih =>
      intro l hl c hc
      cases l with
      | nil => simp [utilArrayChunk] at hc
      | cons x xs =>
          rw [utilArrayChunk] at hc
          rw [dif_neg (by norm_num)] at hc
          rcases List.mem_cons.mp hc with rfl | hc
          · refine ⟨?_, ?_⟩
            · simpa using Nat.min_le_left 150 (x :: xs).length
            · intro y hy
              exact List.mem_of_mem_take hy
          · have hlen : ((x :: xs).drop 150).length ≤ k := by
              simp only [List.length_drop, List.length_cons]
              simp only [List.length_cons] at hl
              omega
            obtain ⟨ha, hb⟩ := ih _ hlen c hc
            exact ⟨ha, fun y hy => List.mem_of_mem_drop (hb y hy)⟩

/-- C9: `loadUsers` serves cached users locally.  The callback fires with the
cached records whenever at least one requested ID is cached or the client is
unauthenticated; every HTTP request carries at most 150 IDs, all of them
uncached (so a cached ID is never re-requested); and an unauthenticated call
issues no request at all. -/
theorem C9_loadUsers_cache (auth : Bool) (users : List (String × ParsedUser))
    (ctl : List String) (uids : List String) :
    ((∃ uid ∈ uids, lookupUser users uid ≠ none) ∨ auth = false →
       UsersEvent.callbackCached
           (partitionUsers users ctl (utilArrayUniq uids)).2.2 ∈
         (loadUsers auth users ctl uids).2) ∧
    (∀ ids, UsersEvent.request ids ∈ (loadUsers auth users ctl uids).2 →
       ids.length ≤ 150 ∧ ∀ id ∈ ids, lookupUser users id = none) ∧
    (auth = false → ∀ ids,
       UsersEvent.request ids ∉ (loadUsers auth users ctl uids).2) := by
  cases auth with
  | false =>
      refine ⟨?_, ?_, ?_⟩
      · intro _
        simp [loadUsers]
      · intro ids hmem
        simp [loadUsers] at hmem
      · intro _ ids hmem
        simp [loadUsers] at hmem
  | true =>
      refine ⟨?_, ?_, ?_⟩
      · intro hcase
        rcases hcase with ⟨uid, huid, hlk⟩ | hfalse
        · have hne : (partitionUsers users ctl (utilArrayUniq uids)).2.2 ≠ [] :=
            partitionUsers_cached_ne_nil users (utilArrayUniq uids) ctl uid
              (utilArrayUniq_mem uids uid huid) hlk
          simp [loadUsers, hne]
        · cases hfalse
      · intro ids hmem
        by_cases hne : (partitionUsers users ctl (utilArrayUniq uids)).2.2 = []
        · simp only [loadUsers, hne] at hmem
          rw [if_neg (by simp), if_neg (by simp)] at hmem
          simp only [List.nil_append, List.mem_map] at hmem
          obtain ⟨c, hc, hceq⟩ := hmem
          obtain ⟨hlen, hsub⟩ := utilArrayChunk_spec
            (partitionUsers users ctl (utilArrayUniq uids)).2.1.length _ le_rfl c hc
          have hids : c = ids := by
            injection hceq
          subst hids
          exact ⟨hlen, fun id hid =>
            partitionUsers_toLoad_uncached users (utilArrayUniq uids) ctl id (hsub id hid)⟩
        · simp only [loadUsers] at hmem
          rw [if_neg (by simp), if_pos (by simp [hne])] at hmem
          simp only [List.singleton_append, List.mem_cons, List.mem_map] at hmem
          rcases hmem with heq | ⟨c, hc, hceq⟩
          · cases heq
          · obtain ⟨hlen, hsub⟩ := utilArrayChunk_spec
              (partitionUsers users ctl (utilArrayUniq uids)).2.1.length _ le_rfl c hc
            have hids : c = ids := by
              injection hceq
            subst hids
            exact ⟨hlen, fun id hid =>
              partitionUsers_toLoad_uncached users (utilArrayUniq uids) ctl id (hsub id hid)⟩
      · intro hfalse
        cases hfalse

/-- Witness for C9: one cached and one uncached ID, authenticated. -/
theorem C9_loadUsers_cache_witness :
    let u : ParsedUser :=
      { id := "1", display_name := some "alice", account_created := none,
        image_url := none, changesets_count := "0", active_blocks := "0" }
    UsersEvent.callbackCached
        (partitionUsers [("1", u)] [] (utilArrayUniq ["1", "2"])).2.2 ∈
      (loadUsers true [("1", u)] [] ["1", "2"]).2 := by
  intro u
  exact (C9_loadUsers_cache true [("1", u)] [] ["1", "2"]).1
    (Or.inl ⟨"1", by simp, by simp [lookupUser]⟩)

end OsmService

namespace OsmService

/-- The displacement loop of `_parseNoteXML`, taken over exact rationals,
ends at an unoccupied location (its totality is the termination of the
exact-arithmetic loop on every finite cache). -/
theorem bumpLoc_unoccupied (rtree : List NoteBox) (loc : ℚ × ℚ) :
    noteOccupied rtree (bumpLoc rtree loc) = false := by
  refine bumpLoc.induct rtree
    (fun p => noteOccupied rtree (bumpLoc rtree p) = false) ?_ ?_ loc
  · intro p h ih
    rw [bumpLoc, dif_pos h]
    exact ih
  · intro p h
    rw [bumpLoc, dif_neg h]
    simpa using h

/-- C10, in the exact-arithmetic model of the displacement the code intends:
the coincidence-displacement loop terminates on every finite cache (the loop
is a total function) at an unoccupied location, and inserting the parsed
note there keeps the locations of the note-index entries pairwise distinct
whenever the index holds point entries.  The program itself performs the
displacement on IEEE doubles, where adding 0.00001 no longer changes a
coordinate of magnitude above about 1.8e11, so on a cache holding a
coincident note at such a coordinate the source do-while diverges and the
claimed termination on every finite cache fails for the code as written. -/
theorem C10_note_coincidence (cache : NoteCache) (x : XmlNote) (uid : String)
    (loc : ℚ × ℚ) :
    noteOccupied cache.rtree (bumpLoc cache.rtree loc) = false ∧
    ((∀ b ∈ cache.rtree, b.minX = b.maxX ∧ b.minY = b.maxY) →
     cache.rtree.Pairwise (fun a b => (a.minX, a.minY) ≠ (b.minX, b.minY)) →
     (parseNoteXML cache x uid).1.rtree.Pairwise
       (fun a b => (a.minX, a.minY) ≠ (b.minX, b.minY))) := by
  refine ⟨bumpLoc_unoccupied cache.rtree loc, ?_⟩
  intro hpt hpw
  have hunocc := bumpLoc_unoccupied cache.rtree (getLoc x.lon x.lat)
  simp only [parseNoteXML, encodeNoteRtree]
  rw [List.pairwise_append]
  refine ⟨hpw, by simp, ?_⟩
  intro a ha b hb heq
  simp only [List.mem_singleton] at hb
  subst hb
  simp only [Prod.mk.injEq] at heq
  obtain ⟨h1, h2⟩ := heq
  obtain ⟨hpx, hpy⟩ := hpt a ha
  have hcon : cache.rtree.any (fun b =>
      decide (b.minX ≤ (bumpLoc cache.rtree (getLoc x.lon x.lat)).1) &&
      decide (b.minY ≤ (bumpLoc cache.rtree (getLoc x.lon x.lat)).2) &&
      decide ((bumpLoc cache.rtree (getLoc x.lon x.lat)).1 ≤ b.maxX) &&
      decide ((bumpLoc cache.rtree (getLoc x.lon x.lat)).2 ≤ b.maxY)) = true := by
    refine List.any_eq_true.mpr ⟨a, ha, ?_⟩
    simp only [Bool.and_eq_true, decide_eq_true_eq]
    refine ⟨⟨⟨le_of_eq h1, le_of_eq h2⟩, ?_⟩, ?_⟩
    · rw [← hpx]
      exact le_of_eq h1.symm
    · rw [← hpy]
      exact le_of_eq h2.symm
  rw [noteOccupied] at hunocc
  rw [hcon] at hunocc
  cases hunocc

/-- Witness for C10: parsing a note that coincides with a cached note inserts
it at a displaced location, keeping the entry locations pairwise distinct. -/
theorem C10_note_coincidence_witness :
    let b0 : NoteBox := ⟨0, 0, 0, 0, ⟨"0", (0, 0), []⟩⟩
    let cache : NoteCache := ⟨[], [], [], [], [], [], [b0]⟩
    let x : XmlNote := ⟨"1", 0, 0, []⟩
    (parseNoteXML cache x "1").1.rtree.Pairwise
      (fun a b => (a.minX, a.minY) ≠ (b.minX, b.minY)) := by
  intro b0 cache x
  exact (C10_note_coincidence cache x "1" (0, 0)).2
    (by decide) (by simp)

end OsmService
